import Mathlib

/-!
# Contact sheet pagination (`create_contact_sheet.go`)

A shallow embedding of the grid layout and pagination code of the contact sheet
generator: `generateContactSheet`, `createImageGrid`, `resizeImage`,
`appendImage`, `AddNextImage` and `savePdf`.

Modelling conventions.

* The type `int` of Go has 64 bits.  The pixel arithmetic of the program (the canvas
  size of lines 84-85, the cell offsets of `appendImage`, the methods of
  `image.Point` and `image.Rectangle`) is modelled with 64-bit
  wrap-around (`wrapInt`).  Loop counters and the cursor are incremented only
  below a bound that is itself an `int`, so they are plain integers.  The product
  `rows*columns` of line 104 is taken without wrap-around: it is below `2^63` for
  every `columns < 2^31`, and from 11599 columns on (up to the column counts near
  `10^16` at which the canvas size itself wraps) line 96 panics before line 104 is
  reached.
* `float64` arithmetic is modelled exactly for the three operations the program
  performs (`float64(int)`, the product with the constant `11 / 8.5`, and one
  division), by rounding to 53 significant bits, ties to even.  The exponent
  range of `float64` is not modelled: every operand comes from an `int`.
* The external collaborators (JPEG decoder, JPEG encoder, PDF writer) are
  oracles collected in `Env`.
* Pixels are not modelled: an image is its bounding rectangle together with the
  list of cells that were drawn onto it.  Caption drawing (`addLabel`) and the
  progress bar have no influence on control flow and are left out.
* `image.NewRGBA` panics on a rectangle with a negative side or with more bytes of
  pixels than the runtime allocates (`maxAlloc`, 2^48 bytes on 64-bit platforms);
  below that limit the allocation is taken to succeed.
-/

namespace ContactSheet

/-! ## `float64` rounding -/

/-- Fuelled binary logarithm: `log2Fuel fuel n = ⌊log₂ n⌋` once `fuel ≥ n`. -/
def log2Fuel : Nat → Nat → Nat
  | 0, _ => 0
  | fuel + 1, n => if n < 2 then 0 else log2Fuel fuel (n / 2) + 1

/-- Position of the leading bit of `n` (`0` for `n = 0`). -/
def ilog2 (n : Nat) : Nat := log2Fuel n n

/-- Nearest natural number with at most 53 significant bits, ties to even:
the `float64` nearest to the natural number `n`. -/
def roundNat53 (n : Nat) : Nat :=
  if ilog2 n ≤ 52 then n
  else
    let s := ilog2 n - 52
    let q := n / 2 ^ s
    let r := n % 2 ^ s
    let half := 2 ^ (s - 1)
    if r < half then q * 2 ^ s
    else if half < r then (q + 1) * 2 ^ s
    else if q % 2 = 0 then q * 2 ^ s
    else (q + 1) * 2 ^ s

/-- Conversion `float64(n)` of an `int`; the result is an integer-valued double. -/
def float64OfInt (n : Int) : Int := Int.sign n * (roundNat53 n.natAbs : Int)

/-- Mantissa of the constant `pageSize := 11 / 8.5`: the double nearest to `22/17`
is `pageSizeMant / 2^52` (printed by Go as `1.2941176470588236`). -/
def pageSizeMant : Nat := 5828187753067701

/-- Row count of line 81: `int(math.Floor(float64(columns) * pageSize))`.
The product of the two doubles is rounded once; `m / 2^52` is its magnitude. -/
def rowsOf (columns : Int) : Int :=
  let x := float64OfInt columns
  let m := roundNat53 (x.natAbs * pageSizeMant)
  if 0 ≤ x then ((m / 2 ^ 52 : Nat) : Int)
  else -(((m + 2 ^ 52 - 1) / 2 ^ 52 : Nat) : Int)

/-- Number of fraction bits kept when dividing by `b`: enough for the quotient of
any `a ≥ 1` to carry more than 55 bits. -/
def divShift (b : Nat) : Nat := ilog2 b + 56

/-- Correctly rounded quotient `a / b` of two naturals, in units of
`2^-(divShift b + 1)`: the exact quotient is truncated with a sticky bit and
then rounded to 53 bits. -/
def divMant (a b : Nat) : Nat :=
  let t := divShift b
  roundNat53 (2 * (a * 2 ^ t / b) + (if a * 2 ^ t % b = 0 then 0 else 1))

/-- The expression `math.Ceil(x / y)` on integer-valued doubles, `none` when the
quotient is `NaN` or infinite (`y = 0`). -/
def ceilDivFloat64 (x y : Int) : Option Int :=
  if y = 0 then none
  else
    let m := divMant x.natAbs y.natAbs
    let u := 2 ^ (divShift y.natAbs + 1)
    if 0 ≤ Int.sign x * Int.sign y then some (((m + u - 1) / u : Nat) : Int)
    else some (-((m / u : Nat) : Int))

/-! ## Data model -/

/-- Values of the Go type `error`. -/
abbrev GoError := String

structure ContactSheetItem where
  Width : Int
  Height : Int
  HorizontalMargin : Int
  VerticalMargin : Int
deriving DecidableEq

/-- An `image.Point`. -/
structure Point where
  X : Int
  Y : Int
deriving DecidableEq

/-- An `image.Rectangle`: `Min` inclusive, `Max` exclusive. -/
structure Rectangle where
  Min : Point
  Max : Point
deriving DecidableEq

/-- The value a Go `int` (64 bits, wrapping) holds for the integer `x`:
the representative of `x` modulo `2^64` in `[-2^63, 2^63)`. -/
def wrapInt (x : Int) : Int :=
  (x + 9223372036854775808) % 18446744073709551616 - 9223372036854775808

/-- Operator `+` on `int`. -/
def addInt (a b : Int) : Int := wrapInt (a + b)

/-- Operator `-` on `int`. -/
def subInt (a b : Int) : Int := wrapInt (a - b)

/-- Operator `*` on `int`. -/
def mulInt (a b : Int) : Int := wrapInt (a * b)

/-- Method `Point.Add`. -/
def Point.Add (p q : Point) : Point := ⟨addInt p.X q.X, addInt p.Y q.Y⟩

/-- Method `Rectangle.Size`. -/
def Rectangle.Size (r : Rectangle) : Point :=
  ⟨subInt r.Max.X r.Min.X, subInt r.Max.Y r.Min.Y⟩

/-- Method `Rectangle.Dx`. -/
def Rectangle.Dx (r : Rectangle) : Int := subInt r.Max.X r.Min.X

/-- Method `Rectangle.Dy`. -/
def Rectangle.Dy (r : Rectangle) : Int := subInt r.Max.Y r.Min.Y

/-- Function `image.Rect(0, 0, x1, y1)` for non-negative `x1`, `y1`. -/
def rectFromOrigin (x1 y1 : Int) : Rectangle := ⟨⟨0, 0⟩, ⟨x1, y1⟩⟩

/-- The rectangle `r` lies inside `s` (both ends of each side within `s`). -/
def Rectangle.Inside (r s : Rectangle) : Prop :=
  s.Min.X ≤ r.Min.X ∧ r.Max.X ≤ s.Max.X ∧ s.Min.Y ≤ r.Min.Y ∧ r.Max.Y ≤ s.Max.Y

/-- Two rectangles share a pixel (half-open intervals on both axes). -/
def Rectangle.Overlaps (r s : Rectangle) : Prop :=
  r.Min.X < s.Max.X ∧ s.Min.X < r.Max.X ∧ r.Min.Y < s.Max.Y ∧ s.Min.Y < r.Max.Y

/-- One call of `appendImage`: the grid position, the caption and the destination
rectangle handed to `draw.Draw`. -/
structure Cell where
  row : Int
  col : Int
  caption : String
  rect : Rectangle
deriving DecidableEq

/-- An `*image.RGBA`: its bounds and the cells drawn onto it, in drawing order. -/
structure RGBA where
  Rect : Rectangle
  cells : List Cell
deriving DecidableEq

/-- A page registered by `AddNextImage`: the image name and the encoded canvas. -/
structure Page where
  imageName : String
  canvas : RGBA
deriving DecidableEq

/-- The `*gofpdf.Fpdf` document: the number of `AddPage` calls and the images
registered and placed, in order. -/
structure Pdf where
  pageCount : Nat
  images : List Page
deriving DecidableEq

/-- External collaborators. -/
structure Env where
  /-- Error of `jpeg.Decode` on the file of that name (`none`: it decodes). -/
  decodeErr : String → Option GoError
  /-- Error of `jpeg.Encode` on a canvas (`none`: it encodes). -/
  encodeErr : RGBA → Option GoError
  /-- Error of `OutputFileAndClose` (`none`: the file is written). -/
  outputErr : String → Pdf → Option GoError
  /-- Value the platform yields for `int(x)` when `x` is `NaN` or infinite. -/
  nonFiniteToInt : Int

/-! ## The program -/

/-- Largest slice, in bytes, that the Go runtime allocates on a 64-bit platform;
`make` panics beyond it. -/
def maxAlloc : Int := 281474976710656

/-- Function `image.NewRGBA`: `none` is the panic it raises for a rectangle with a
negative side (the check of package `image`) or with a pixel buffer of `4 * Dx * Dy`
bytes beyond `maxAlloc` (the check of `make`). -/
def NewRGBA (r : Rectangle) : Option RGBA :=
  if r.Dx < 0 ∨ r.Dy < 0 ∨ maxAlloc < 4 * r.Dx * r.Dy then none
  else some ⟨r, []⟩

/-- Lines 144-159: decode and stretch to `width × length`. -/
def resizeImage (env : Env) (filePath : String) (length width : Int) : Except GoError RGBA :=
  match env.decodeErr filePath with
  | some err => .error err
  | none => .ok ⟨rectFromOrigin width length, []⟩

/-- Lines 162-167: the rectangle `r` that `appendImage` blits to. -/
def destRect (img : RGBA) (contactSheetItem : ContactSheetItem) (j i : Int) : Rectangle :=
  let sp : Point :=
    ⟨addInt (mulInt i contactSheetItem.Width) (mulInt i contactSheetItem.HorizontalMargin),
     addInt (mulInt j contactSheetItem.Height) (mulInt j contactSheetItem.VerticalMargin)⟩
  ⟨sp, sp.Add img.Rect.Size⟩

/-- Lines 161-170: blit `img` at the offset of cell `(j, i)`. -/
def appendImage (canvas img : RGBA) (contactSheetItem : ContactSheetItem) (j i : Int)
    (caption : String) : RGBA :=
  { canvas with cells := canvas.cells ++ [⟨j, i, caption, destRect img contactSheetItem j i⟩] }

/-- State threaded through the loops of `createImageGrid`: the canvas, the cursor
and the log of files handed to `resizeImage`. -/
structure GridState where
  canvas : RGBA
  fileIdx : Int
  decoded : List String
deriving DecidableEq

/-- Control flow out of a loop body. -/
inductive Step where
  /-- The body fell through to the next iteration. -/
  | next (s : GridState)
  /-- A `return fileIdx, err` statement was executed. -/
  | returned (fileIdx : Int) (err : Option GoError) (s : GridState)
  /-- Indexing `fileNames[fileIdx]` out of range. -/
  | indexPanic (s : GridState)
deriving DecidableEq

/-- Slice indexing with an `int` index. -/
def index? (fileNames : List String) (i : Int) : Option String :=
  if i < 0 then none else fileNames.get? i.toNat

/-- Lines 122-133: the body of the inner loop. -/
def cellBody (env : Env) (fileNames : List String) (contactSheetItem : ContactSheetItem)
    (row col : Int) (s : GridState) : Step :=
  if s.fileIdx ≥ (fileNames.length : Int) then .returned (-1) none s
  else
    match index? fileNames s.fileIdx with
    | none => .indexPanic s
    | some fileName =>
      let s1 := { s with decoded := s.decoded ++ [fileName] }
      match resizeImage env fileName contactSheetItem.Height contactSheetItem.Width with
      | .error err => .returned 0 (some err) s1
      | .ok img =>
        .next { s1 with
          canvas := appendImage s1.canvas img contactSheetItem row col fileName
          fileIdx := s1.fileIdx + 1 }

/-- Line 121: `for col := …; col < columns; col++`, with `remaining = columns - col`. -/
def colLoop (env : Env) (fileNames : List String) (contactSheetItem : ContactSheetItem)
    (row : Int) : Nat → Int → GridState → Step
  | 0, _, s => .next s
  | remaining + 1, col, s =>
    match cellBody env fileNames contactSheetItem row col s with
    | .next s1 => colLoop env fileNames contactSheetItem row remaining (col + 1) s1
    | out => out

/-- Line 120: `for row := …; row < rows; row++`, with `remaining = rows - row`. -/
def rowLoop (env : Env) (fileNames : List String) (contactSheetItem : ContactSheetItem)
    (columns : Int) : Nat → Int → GridState → Step
  | 0, _, s => .next s
  | remaining + 1, row, s =>
    match colLoop env fileNames contactSheetItem row columns.toNat 0 s with
    | .next s1 => rowLoop env fileNames contactSheetItem columns remaining (row + 1) s1
    | out => out

/-- Lines 119-137. -/
def createImageGrid (env : Env) (canvas : RGBA) (fileNames : List String) (rows columns : Int)
    (fileIdx : Int) (contactSheetItem : ContactSheetItem) (decoded : List String) : Step :=
  match rowLoop env fileNames contactSheetItem columns rows.toNat 0 ⟨canvas, fileIdx, decoded⟩ with
  | .next s => .returned s.fileIdx none s
  | out => out

/-- Lines 205-209. -/
def createPdf : Pdf := ⟨0, []⟩

/-- Lines 211-231: add a page, encode the canvas, register and place it. -/
def AddNextImage (env : Env) (pdf : Pdf) (imageName : String) (img : RGBA) :
    Pdf × Option GoError :=
  let pdf1 : Pdf := { pdf with pageCount := pdf.pageCount + 1 }
  match env.encodeErr img with
  | some err => (pdf1, some err)
  | none => ({ pdf1 with images := pdf1.images ++ [⟨imageName, img⟩] }, none)

/-- Lines 233-235. -/
def savePdf (env : Env) (pdf : Pdf) (filename : String) : Option GoError :=
  env.outputErr filename pdf

/-- How a call ended. -/
inductive Outcome where
  | returned (err : Option GoError)
  | indexPanic
  /-- The panic of `image.NewRGBA` at line 96. -/
  | newRGBAPanic
deriving DecidableEq

/-- Everything observable about one call of `generateContactSheet`. -/
structure Run where
  result : Outcome
  pdf : Pdf
  /-- Files handed to `resizeImage`, in order. -/
  decoded : List String
  /-- Successive values of the variable `fileIdx` of `generateContactSheet`. -/
  cursors : List Int
  /-- Whether `savePdf` was called. -/
  saved : Bool
deriving DecidableEq

/-- The item of line 82. -/
def contactSheetItem : ContactSheetItem :=
  { Width := 600, Height := 600, HorizontalMargin := 20, VerticalMargin := 52 }

/-- Line 84. -/
def canvasWidth (item : ContactSheetItem) (columns : Int) : Int :=
  addInt (mulInt item.HorizontalMargin (subInt columns 1)) (mulInt columns item.Width)

/-- Line 85. -/
def canvasHeight (item : ContactSheetItem) (rows : Int) : Int :=
  addInt (mulInt item.VerticalMargin rows) (mulInt rows item.Height)

/-- Line 104: `int(math.Ceil(float64(fileIdx) / float64(rows*columns)))`.  The product
is below `2^63` for every `columns < 2^31` and is taken without wrap-around. -/
def imageNumOf (env : Env) (fileIdx rows columns : Int) : Int :=
  match ceilDivFloat64 (float64OfInt fileIdx) (float64OfInt (rows * columns)) with
  | some v => v
  | none => env.nonFiniteToInt

/-- Function `strconv.Itoa`. -/
def Itoa (n : Int) : String := toString n

/-- State of the loop of lines 95-109. -/
structure LoopState where
  pdf : Pdf
  decoded : List String
  cursors : List Int
deriving DecidableEq

/-- Lines 95-116: the page loop followed by `savePdf`.  One unit of fuel is used
per evaluation of the loop condition; `none` means the fuel ran out. -/
def generateLoop (env : Env) (fileNames : List String) (outputFile : String)
    (rows columns : Int) (sp : Point) (item : ContactSheetItem) :
    Nat → Int → LoopState → Option Run
  | 0, _, _ => none
  | fuel + 1, fileIdx, st =>
    if fileIdx ≥ 0 ∧ fileIdx < (fileNames.length : Int) then
      match NewRGBA ⟨⟨0, 0⟩, sp⟩ with
      | none => some ⟨.newRGBAPanic, st.pdf, st.decoded, st.cursors, false⟩
      | some canvas =>
        match createImageGrid env canvas fileNames rows columns fileIdx item st.decoded with
        | .indexPanic s => some ⟨.indexPanic, st.pdf, s.decoded, st.cursors, false⟩
        -- not produced by `createImageGrid`, which always ends in a `return`
        | .next s => some ⟨.indexPanic, st.pdf, s.decoded, st.cursors, false⟩
        | .returned fileIdx1 (some err) s =>
          some ⟨.returned (some err), st.pdf, s.decoded, st.cursors ++ [fileIdx1], false⟩
        | .returned fileIdx1 none s =>
          let imageNum := imageNumOf env fileIdx1 rows columns
          match AddNextImage env st.pdf ("image" ++ Itoa imageNum) s.canvas with
          | (pdf1, some err) =>
            some ⟨.returned (some err), pdf1, s.decoded, st.cursors ++ [fileIdx1], false⟩
          | (pdf1, none) =>
            generateLoop env fileNames outputFile rows columns sp item fuel fileIdx1
              ⟨pdf1, s.decoded, st.cursors ++ [fileIdx1]⟩
    else
      some ⟨.returned (savePdf env st.pdf outputFile), st.pdf, st.decoded, st.cursors, true⟩

/-- Lines 79-117. -/
def generateContactSheet (env : Env) (fileNames : List String) (outputFile : String)
    (columns : Int) (fuel : Nat) : Option Run :=
  let rows := rowsOf columns
  let canvasWidth := canvasWidth contactSheetItem columns
  let canvasHeight := canvasHeight contactSheetItem rows
  let sp : Point := ⟨canvasWidth, canvasHeight⟩
  generateLoop env fileNames outputFile rows columns sp contactSheetItem fuel 0
    ⟨createPdf, [], [0]⟩

/-! ## Expected layouts and runs -/

/-- The image `resizeImage` returns for the cell size of `item`. -/
def resizedImage (item : ContactSheetItem) : RGBA :=
  ⟨rectFromOrigin item.Width item.Height, []⟩

/-- The cell `appendImage` records for a resized image at `(row, col)`. -/
def cellAt (item : ContactSheetItem) (row col : Int) (caption : String) : Cell :=
  ⟨row, col, caption, destRect (resizedImage item) item row col⟩

/-- Cells of consecutive columns of one row. -/
def placeRow (item : ContactSheetItem) (row : Int) : Int → List String → List Cell
  | _, [] => []
  | col, nm :: rest => cellAt item row col nm :: placeRow item row (col + 1) rest

/-- Cells in row-major order on a grid of `c` columns, from linear position `l`. -/
def placeFrom (item : ContactSheetItem) (c : Nat) : Nat → List String → List Cell
  | _, [] => []
  | l, nm :: rest =>
    cellAt item ((l / c : Nat) : Int) ((l % c : Nat) : Int) nm :: placeFrom item c (l + 1) rest

/-- The page built from the `p`-th block of `R * c` files, submitted while the
variable `fileIdx` holds `cursor`. -/
def pageAt (env : Env) (fileNames : List String) (item : ContactSheetItem) (sp : Point)
    (R c p : Nat) (cursor : Int) : Page :=
  ⟨"image" ++ Itoa (imageNumOf env cursor (R : Int) (c : Int)),
    ⟨⟨⟨0, 0⟩, sp⟩, placeFrom item c 0 ((fileNames.drop (p * (R * c))).take (R * c))⟩⟩

/-- The first `p` pages, all of them full. -/
def fullPages (env : Env) (fileNames : List String) (item : ContactSheetItem) (sp : Point)
    (R c p : Nat) : List Page :=
  (List.range p).map (fun q => pageAt env fileNames item sp R c q (((q + 1) * (R * c) : Nat) : Int))

/-- Loop state after `p` full pages. -/
def stateAt (env : Env) (fileNames : List String) (item : ContactSheetItem) (sp : Point)
    (R c p : Nat) : LoopState :=
  ⟨⟨p, fullPages env fileNames item sp R c p⟩, fileNames.take (p * (R * c)),
    (List.range (p + 1)).map (fun q => ((q * (R * c) : Nat) : Int))⟩

/-- The run in which every file decodes and every canvas encodes: `n / (R*c)` full
pages, then one partial page when `n` is not a multiple of `R*c`, submitted while
`fileIdx` holds the sentinel `-1`. -/
def successRun (env : Env) (fileNames : List String) (outputFile : String)
    (item : ContactSheetItem) (sp : Point) (R c : Nat) : Run :=
  let n := fileNames.length
  let q := n / (R * c)
  let last : List Page :=
    if n % (R * c) = 0 then [] else [pageAt env fileNames item sp R c q (-1)]
  let pdf : Pdf := ⟨q + last.length, fullPages env fileNames item sp R c q ++ last⟩
  { result := .returned (savePdf env pdf outputFile)
    pdf := pdf
    decoded := fileNames
    cursors := (List.range (q + 1)).map (fun p => ((p * (R * c) : Nat) : Int)) ++
      (if n % (R * c) = 0 then [] else [-1])
    saved := true }

/-- The run that stops at the first undecodable file, of index `k`. -/
def failRun (env : Env) (fileNames : List String) (item : ContactSheetItem) (sp : Point)
    (R c k : Nat) (e : GoError) : Run :=
  let q := k / (R * c)
  { result := .returned (some e)
    pdf := ⟨q, fullPages env fileNames item sp R c q⟩
    decoded := fileNames.take (k + 1)
    cursors := (List.range (q + 1)).map (fun p => ((p * (R * c) : Nat) : Int)) ++ [0]
    saved := false }

/-- The point `sp` of line 86. -/
def canvasPoint (columns : Int) : Point :=
  ⟨canvasWidth contactSheetItem columns, canvasHeight contactSheetItem (rowsOf columns)⟩

/-- Bounds of the canvas allocated at line 96. -/
def pageBounds (columns : Int) : Rectangle := ⟨⟨0, 0⟩, canvasPoint columns⟩

/-- Cells per page, `rows * columns`. -/
def capacity (columns : Int) : Nat := (rowsOf columns * columns).toNat

/-- Every listed file decodes. -/
def AllDecode (env : Env) (fileNames : List String) : Prop :=
  ∀ nm ∈ fileNames, env.decodeErr nm = none

/-- Line 96 allocates the page canvas: `image.NewRGBA` does not panic. -/
def CanvasAllocated (columns : Int) : Prop := (NewRGBA (pageBounds columns)).isSome

/-- Every page append succeeds.  Appending a page is lines 96-108: the page canvas is
allocated (`image.NewRGBA`), filled, and handed to `AddNextImage`, whose encoder
accepts canvases of the page size. -/
def AppendsSucceed (env : Env) (columns : Int) : Prop :=
  CanvasAllocated columns ∧
    ∀ img : RGBA, img.Rect = pageBounds columns → env.encodeErr img = none

/-- The canvas of page `p` (counted from 0) when the files drawn onto it decode:
the block of `rows * columns` files starting at `p * rows * columns`, in row-major
order. -/
def pageCanvas (fileNames : List String) (columns : Int) (p : Nat) : RGBA :=
  ⟨pageBounds columns, placeFrom contactSheetItem columns.toNat 0
    ((fileNames.drop (p * capacity columns)).take (capacity columns))⟩

/-- The run `generateContactSheet` makes when all files decode and all appends succeed. -/
def expectedRun (env : Env) (fileNames : List String) (outputFile : String) (columns : Int) :
    Run :=
  successRun env fileNames outputFile contactSheetItem (canvasPoint columns)
    (rowsOf columns).toNat columns.toNat

/-- Environment in which every file decodes, every page encodes and the document is
written. -/
def okEnv : Env := ⟨fun _ => none, fun _ => none, fun _ _ => none, 0⟩

/-- Environment whose JPEG encoder, like `jpeg.Encode`, rejects an image with a side
of 65536 pixels or more; every file decodes. -/
def jpegLimitEnv : Env :=
  ⟨fun _ => none,
    fun img => if 65536 ≤ img.Rect.Size.X ∨ 65536 ≤ img.Rect.Size.Y then
      some "jpeg: image is too large to encode" else none,
    fun _ _ => none, 0⟩

/-- Thirty-one files for a grid of thirty cells. -/
def thirtyOne : List String := List.replicate 31 "photo.jpg"

/-- Environment in which `c.jpg` is corrupt. -/
def corruptEnv : Env :=
  ⟨fun nm => if nm = "c.jpg" then some "invalid JPEG format: missing SOI marker" else none,
    fun _ => none, fun _ _ => none, 0⟩

/-- Environment in which `c.jpg` is corrupt and the encoder has the size limit of
`jpeg.Encode`. -/
def corruptLimitEnv : Env :=
  ⟨fun nm => if nm = "c.jpg" then some "invalid JPEG format: missing SOI marker" else none,
    fun img => if 65536 ≤ img.Rect.Size.X ∨ 65536 ≤ img.Rect.Size.Y then
      some "jpeg: image is too large to encode" else none,
    fun _ _ => none, 0⟩

/-- The state carried by a step. -/
def Step.state : Step → GridState
  | .next s => s
  | .returned _ _ s => s
  | .indexPanic s => s

/-- Value of a decimal digit string. -/
def digitsValue (l : List Char) : Nat :=
  l.foldl (fun a ch => 10 * a + (ch.toNat - 48)) 0

/-! ## Facts about rounding -/

theorem log2Fuel_eq_log2 (fuel n : Nat) (h : n ≤ fuel) : log2Fuel fuel n = Nat.log2 n := by
  induction fuel generalizing n with
  | zero =>
    have : n = 0 := by omega
    subst this
    simp [log2Fuel, Nat.log2]
  | succ fuel ih =>
    unfold log2Fuel
    by_cases h2 : n < 2
    · rw [if_pos h2]
      unfold Nat.log2
      rw [if_neg (by omega)]
    · rw [if_neg h2]
      rw [ih (n / 2) (by omega)]
      conv_rhs => unfold Nat.log2
      rw [if_pos (by omega)]

theorem ilog2_eq_log2 (n : Nat) : ilog2 n = Nat.log2 n :=
  log2Fuel_eq_log2 n n (Nat.le_refl n)

theorem ilog2_lt_iff {n k : Nat} (h : n ≠ 0) : ilog2 n < k ↔ n < 2 ^ k := by
  rw [ilog2_eq_log2]; exact Nat.log2_lt h

theorem pow_ilog2_le {n : Nat} (h : n ≠ 0) : 2 ^ ilog2 n ≤ n := by
  rw [ilog2_eq_log2]; exact Nat.log2_self_le h

theorem lt_pow_ilog2_succ (n : Nat) : n < 2 ^ (ilog2 n + 1) := by
  rw [ilog2_eq_log2]; exact Nat.lt_log2_self

theorem roundNat53_of_lt {n : Nat} (h : n < 2 ^ 53) : roundNat53 n = n := by
  unfold roundNat53
  by_cases h0 : n = 0
  · subst h0; simp [ilog2, log2Fuel]
  · have : ilog2 n < 53 := (ilog2_lt_iff h0).2 h
    rw [if_pos (by omega)]

/-- Shape of a rounding that drops `s = ilog2 n - 52` bits: the result is the
multiple of `2^s` just below or just above `n`, the nearer one. -/
theorem roundNat53_cases {n : Nat} (h : 2 ^ 53 ≤ n) :
    1 ≤ ilog2 n - 52 ∧ 2 ^ (ilog2 n) ≤ n ∧ n < 2 ^ (ilog2 n + 1) ∧
    ((roundNat53 n = n / 2 ^ (ilog2 n - 52) * 2 ^ (ilog2 n - 52) ∧
        2 * (n % 2 ^ (ilog2 n - 52)) ≤ 2 ^ (ilog2 n - 52)) ∨
     (roundNat53 n = n / 2 ^ (ilog2 n - 52) * 2 ^ (ilog2 n - 52) + 2 ^ (ilog2 n - 52) ∧
        2 ^ (ilog2 n - 52) ≤ 2 * (n % 2 ^ (ilog2 n - 52)))) := by
  have h0 : n ≠ 0 := by
    have : 0 < 2 ^ 53 := by norm_num
    omega
  have hl : ¬ ilog2 n < 53 := fun hc => by
    have := (ilog2_lt_iff h0).1 hc
    omega
  have hs : 1 ≤ ilog2 n - 52 := by omega
  refine ⟨hs, pow_ilog2_le h0, lt_pow_ilog2_succ n, ?_⟩
  have hhalf : 2 * 2 ^ (ilog2 n - 52 - 1) = 2 ^ (ilog2 n - 52) := by
    rw [← pow_succ']
    congr 1
    omega
  unfold roundNat53
  rw [if_neg (by omega)]
  simp only []
  generalize ilog2 n - 52 = s at *
  generalize hP : 2 ^ s = P at *
  generalize hH : 2 ^ (s - 1) = H at *
  have hmul : (n / P + 1) * P = n / P * P + P := by ring
  split_ifs with h1 h2 h3
  · left; exact ⟨rfl, by omega⟩
  · right; exact ⟨hmul, by omega⟩
  · left; exact ⟨rfl, by omega⟩
  · right; exact ⟨hmul, by omega⟩

theorem le_div_mul_of_dvd {a n P : Nat} (hP : 0 < P) (hd : P ∣ a) (h : a ≤ n) :
    a ≤ n / P * P := by
  obtain ⟨t, rfl⟩ := hd
  have : t ≤ n / P := (Nat.le_div_iff_mul_le hP).2 (by rw [Nat.mul_comm]; exact h)
  calc P * t = t * P := Nat.mul_comm _ _
    _ ≤ n / P * P := Nat.mul_le_mul_right P this

/-- Rounding never drops below a power of two that the argument has reached. -/
theorem roundNat53_ge_pow {n k : Nat} (h : 2 ^ k ≤ n) : 2 ^ k ≤ roundNat53 n := by
  by_cases hn : n < 2 ^ 53
  · rw [roundNat53_of_lt hn]; exact h
  · obtain ⟨hs, hlo, -, hc⟩ := roundNat53_cases (Nat.le_of_not_lt hn)
    have hP : 0 < 2 ^ (ilog2 n - 52) := Nat.pow_pos (by norm_num)
    have hfloor : 2 ^ k ≤ n / 2 ^ (ilog2 n - 52) * 2 ^ (ilog2 n - 52) := by
      by_cases hk : ilog2 n - 52 ≤ k
      · exact le_div_mul_of_dvd hP (pow_dvd_pow 2 hk) h
      · have h1 : 2 ^ k ≤ 2 ^ (ilog2 n - 52) :=
          Nat.pow_le_pow_right (by norm_num) (by omega)
        have h2 : 2 ^ (ilog2 n - 52) ≤ n / 2 ^ (ilog2 n - 52) * 2 ^ (ilog2 n - 52) :=
          le_div_mul_of_dvd hP (dvd_refl _)
            (le_trans (Nat.pow_le_pow_right (by norm_num) (by omega)) hlo)
        exact le_trans h1 h2
    rcases hc with ⟨he, -⟩ | ⟨he, -⟩ <;> rw [he] <;> omega

/-- Rounding never exceeds a power of two that bounds the argument. -/
theorem roundNat53_le_pow {n k : Nat} (h : n ≤ 2 ^ k) : roundNat53 n ≤ 2 ^ k := by
  by_cases hn : n < 2 ^ 53
  · rw [roundNat53_of_lt hn]; exact h
  · obtain ⟨hs, hlo, -, hc⟩ := roundNat53_cases (Nat.le_of_not_lt hn)
    have hP : 0 < 2 ^ (ilog2 n - 52) := Nat.pow_pos (by norm_num)
    have hsk : ilog2 n - 52 ≤ k := by
      have : 2 ^ ilog2 n ≤ 2 ^ k := le_trans hlo h
      have := (Nat.pow_le_pow_iff_right (by norm_num : 1 < 2)).1 this
      omega
    have hdm := Nat.div_add_mod n (2 ^ (ilog2 n - 52))
    have hml := Nat.mod_lt n hP
    rcases hc with ⟨he, -⟩ | ⟨he, hr⟩
    · rw [he]
      exact le_trans (Nat.div_mul_le_self _ _) h
    · rw [he]
      have hlt : n / 2 ^ (ilog2 n - 52) * 2 ^ (ilog2 n - 52) < 2 ^ k := by
        have : 0 < n % 2 ^ (ilog2 n - 52) := by omega
        rw [Nat.mul_comm]
        omega
      have hd : 2 ^ (ilog2 n - 52) ∣ 2 ^ k := pow_dvd_pow 2 hsk
      obtain ⟨t, ht⟩ := hd
      rw [ht] at hlt ⊢
      have hqt : n / 2 ^ (ilog2 n - 52) < t := by
        rw [Nat.mul_comm] at hlt
        exact Nat.lt_of_mul_lt_mul_left hlt
      calc n / 2 ^ (ilog2 n - 52) * 2 ^ (ilog2 n - 52) + 2 ^ (ilog2 n - 52)
          = (n / 2 ^ (ilog2 n - 52) + 1) * 2 ^ (ilog2 n - 52) := by ring
        _ ≤ t * 2 ^ (ilog2 n - 52) := Nat.mul_le_mul_right _ hqt
        _ = 2 ^ (ilog2 n - 52) * t := Nat.mul_comm _ _

/-- A number with at most 53 significant bits is its own rounding. -/
theorem roundNat53_mul_pow {j t : Nat} (hj : j < 2 ^ 53) : roundNat53 (j * 2 ^ t) = j * 2 ^ t := by
  by_cases hn : j * 2 ^ t < 2 ^ 53
  · exact roundNat53_of_lt hn
  · obtain ⟨hs, hlo, -, hc⟩ := roundNat53_cases (Nat.le_of_not_lt hn)
    generalize hS : ilog2 (j * 2 ^ t) = L at *
    have hst : L - 52 ≤ t := by
      have h1 : j * 2 ^ t < 2 ^ 53 * 2 ^ t :=
        Nat.mul_lt_mul_of_pos_right hj (Nat.pow_pos (by norm_num))
      rw [← pow_add] at h1
      have := (Nat.pow_lt_pow_iff_right (by norm_num : 1 < 2)).1 (lt_of_le_of_lt hlo h1)
      omega
    have hd : 2 ^ (L - 52) ∣ j * 2 ^ t := dvd_mul_of_dvd_right (pow_dvd_pow 2 hst) j
    have hmod : j * 2 ^ t % 2 ^ (L - 52) = 0 := Nat.mod_eq_zero_of_dvd hd
    have hP : 0 < 2 ^ (L - 52) := Nat.pow_pos (by norm_num)
    rcases hc with ⟨he, -⟩ | ⟨-, hr⟩
    · rw [he]; exact Nat.div_mul_cancel hd
    · omega

theorem float64OfInt_natCast (n : Nat) : float64OfInt (n : Int) = (roundNat53 n : Int) := by
  unfold float64OfInt
  rcases Nat.eq_zero_or_pos n with h | h
  · subst h; simp [roundNat53_of_lt]
  · have : Int.sign (n : Int) = 1 := Int.sign_eq_one_of_pos (by exact_mod_cast h)
    rw [this]; simp

theorem rowsOf_natCast (n : Nat) :
    rowsOf (n : Int) = ((roundNat53 (roundNat53 n * pageSizeMant) / 2 ^ 52 : Nat) : Int) := by
  unfold rowsOf
  simp only [float64OfInt_natCast]
  rw [if_pos (by positivity)]
  simp

/-- At least one row for every positive column count. -/
theorem rowsOf_pos {columns : Int} (h : 1 ≤ columns) : 1 ≤ rowsOf columns := by
  obtain ⟨n, rfl⟩ := Int.eq_ofNat_of_zero_le (by omega : 0 ≤ columns)
  rw [rowsOf_natCast]
  have hn : 2 ^ 0 ≤ n := by simpa using (by exact_mod_cast h : 1 ≤ n)
  have h1 : 1 ≤ roundNat53 n := by simpa using roundNat53_ge_pow hn
  have h2 : 2 ^ 52 ≤ roundNat53 n * pageSizeMant := by
    have : (2 : Nat) ^ 52 ≤ pageSizeMant := by unfold pageSizeMant; norm_num
    calc 2 ^ 52 ≤ pageSizeMant := this
      _ = 1 * pageSizeMant := (Nat.one_mul _).symm
      _ ≤ roundNat53 n * pageSizeMant := Nat.mul_le_mul_right _ h1
  have h3 := roundNat53_ge_pow h2
  have : 1 ≤ roundNat53 (roundNat53 n * pageSizeMant) / 2 ^ 52 :=
    (Nat.le_div_iff_mul_le (by norm_num)).2 (by simpa using h3)
  exact_mod_cast this

/-- No row for a non-positive column count. -/
theorem rowsOf_nonpos {columns : Int} (h : columns ≤ 0) : rowsOf columns ≤ 0 := by
  unfold rowsOf
  simp only []
  split_ifs with hx
  · have hx0 : float64OfInt columns = 0 := by
      have : float64OfInt columns ≤ 0 := by
        unfold float64OfInt
        have hs : Int.sign columns ≤ 0 := by
          rcases lt_or_eq_of_le h with h1 | h1
          · rw [Int.sign_eq_neg_one_of_neg h1]; norm_num
          · rw [h1]; simp
        exact Int.mul_nonpos_of_nonpos_of_nonneg hs (by positivity)
      omega
    rw [hx0]
    simp [roundNat53_of_lt]
  · have : (0 : Int) ≤ ((roundNat53 ((float64OfInt columns).natAbs * pageSizeMant) + 2 ^ 52 - 1)
        / 2 ^ 52 : Nat) := by positivity
    omega

/-- Below `3 * 2^47` columns the float computation agrees with exact arithmetic. -/
theorem rowsOf_exact {n : Nat} (hlt : n < 3 * 2 ^ 47) :
    roundNat53 (roundNat53 n * pageSizeMant) / 2 ^ 52 = 22 * n / 17 := by
  rw [roundNat53_of_lt (by omega : n < 2 ^ 53)]
  by_cases hn : n * pageSizeMant < 2 ^ 53
  · rw [roundNat53_of_lt hn]
    unfold pageSizeMant at *
    omega
  · obtain ⟨hs, hlo, -, hc⟩ := roundNat53_cases (Nat.le_of_not_lt hn)
    have hL : ilog2 (n * pageSizeMant) < 101 := by
      have h0 : n * pageSizeMant ≠ 0 := by
        intro h0; rw [h0] at hn; norm_num at hn
      refine (ilog2_lt_iff h0).2 ?_
      unfold pageSizeMant
      omega
    generalize hS : ilog2 (n * pageSizeMant) - 52 = s at *
    have hs48 : s ≤ 48 := by omega
    have hPle : 2 ^ s ≤ 2 ^ 48 := Nat.pow_le_pow_right (by norm_num) hs48
    have hP : 0 < 2 ^ s := Nat.pow_pos (by norm_num)
    have hdm := Nat.div_add_mod (n * pageSizeMant) (2 ^ s)
    have hml := Nat.mod_lt (n * pageSizeMant) hP
    have hfloor : 22 * n / 17 * 2 ^ 52 ≤ n * pageSizeMant / 2 ^ s * 2 ^ s := by
      refine le_div_mul_of_dvd hP (dvd_mul_of_dvd_right (pow_dvd_pow 2 (by omega)) _) ?_
      unfold pageSizeMant
      omega
    rw [Nat.mul_comm (2 ^ s)] at hdm
    generalize n * pageSizeMant / 2 ^ s * 2 ^ s = X at *
    generalize n * pageSizeMant % 2 ^ s = r at *
    generalize 2 ^ s = P at *
    unfold pageSizeMant at *
    rcases hc with ⟨he, hr⟩ | ⟨he, hr⟩ <;> rw [he] <;> omega

theorem ilog2_mono {a b : Nat} (ha : a ≠ 0) (h : a ≤ b) : ilog2 a ≤ ilog2 b := by
  have h1 := pow_ilog2_le ha
  have h2 := lt_pow_ilog2_succ b
  have h3 : 2 ^ ilog2 a < 2 ^ (ilog2 b + 1) := lt_of_le_of_lt (le_trans h1 h) h2
  have := (Nat.pow_lt_pow_iff_right (by norm_num : 1 < 2)).1 h3
  omega

/-- Rounding to 53 bits is monotone. -/
theorem roundNat53_mono {a b : Nat} (h : a ≤ b) : roundNat53 a ≤ roundNat53 b := by
  by_cases ha : a < 2 ^ 53
  · rw [roundNat53_of_lt ha]
    by_cases hb : b < 2 ^ 53
    · rw [roundNat53_of_lt hb]; exact h
    · have := roundNat53_ge_pow (Nat.le_of_not_lt hb)
      omega
  · have ha53 : 2 ^ 53 ≤ a := Nat.le_of_not_lt ha
    have hb53 : 2 ^ 53 ≤ b := le_trans ha53 h
    have ha0 : a ≠ 0 := by
      have : 0 < 2 ^ 53 := by norm_num
      omega
    have hb0 : b ≠ 0 := by omega
    have hL := ilog2_mono ha0 h
    rcases Nat.lt_or_eq_of_le hL with hlt | heq
    · have h1 : roundNat53 a ≤ 2 ^ (ilog2 a + 1) :=
        roundNat53_le_pow (Nat.le_of_lt (lt_pow_ilog2_succ a))
      have h2 : 2 ^ (ilog2 a + 1) ≤ 2 ^ ilog2 b :=
        Nat.pow_le_pow_right (by norm_num) hlt
      have h3 : 2 ^ ilog2 b ≤ roundNat53 b := roundNat53_ge_pow (pow_ilog2_le hb0)
      exact le_trans h1 (le_trans h2 h3)
    · obtain ⟨-, -, -, hca⟩ := roundNat53_cases ha53
      obtain ⟨-, -, -, hcb⟩ := roundNat53_cases hb53
      rw [← heq] at hcb
      have hP : 0 < 2 ^ (ilog2 a - 52) := Nat.pow_pos (by norm_num)
      generalize 2 ^ (ilog2 a - 52) = P at hca hcb hP
      have hq : a / P ≤ b / P := Nat.div_le_div_right h
      have hda := Nat.div_add_mod a P
      have hdb := Nat.div_add_mod b P
      have hma := Nat.mod_lt a hP
      have hmb := Nat.mod_lt b hP
      rw [Nat.mul_comm] at hda hdb
      rcases Nat.lt_or_eq_of_le hq with hql | hqe
      · have hstep : (a / P + 1) * P ≤ b / P * P := Nat.mul_le_mul_right P hql
        rw [Nat.add_mul, Nat.one_mul] at hstep
        rcases hca with ⟨ea, -⟩ | ⟨ea, -⟩ <;> rcases hcb with ⟨eb, -⟩ | ⟨eb, -⟩ <;>
          rw [ea, eb] <;> omega
      · rcases hca with ⟨ea, ta⟩ | ⟨ea, ta⟩ <;> rcases hcb with ⟨eb, tb⟩ | ⟨eb, tb⟩
        · rw [ea, eb, hqe]
        · rw [ea, eb, hqe]; omega
        · have hab : a = b := by
            rw [hqe] at hda
            omega
          subst hab
          omega
        · rw [ea, eb, hqe]

/-- The row count is monotone in the column count. -/
theorem rowsOf_mono {a b : Nat} (h : a ≤ b) : rowsOf (a : Int) ≤ rowsOf (b : Int) := by
  rw [rowsOf_natCast, rowsOf_natCast]
  have h1 := roundNat53_mono h
  have h2 := roundNat53_mono (Nat.mul_le_mul_right pageSizeMant h1)
  exact_mod_cast Nat.div_le_div_right h2

/-! ## 64-bit arithmetic without overflow -/

/-- Without overflow the wrapped value is the integer itself. -/
theorem wrapInt_eq {x : Int} (h1 : -9223372036854775808 ≤ x) (h2 : x < 9223372036854775808) :
    wrapInt x = x := by
  unfold wrapInt
  omega

theorem wrapInt_range (x : Int) :
    -9223372036854775808 ≤ wrapInt x ∧ wrapInt x < 9223372036854775808 := by
  unfold wrapInt
  omega

/-- Below `10931213373294143` columns the row count stays below `2^63 / 652`. -/
theorem rowsOf_le_of_lt {columns : Int} (hc : 1 ≤ columns) (hlt : columns < 10931213373294143) :
    1 ≤ rowsOf columns ∧ rowsOf columns ≤ 14146276130145360 := by
  refine ⟨rowsOf_pos hc, ?_⟩
  obtain ⟨n, rfl⟩ := Int.eq_ofNat_of_zero_le (by omega : 0 ≤ columns)
  have hn : n ≤ 10931213373294142 := by omega
  have h := rowsOf_mono hn
  have he : rowsOf ((10931213373294142 : Nat) : Int) = 14146276130145360 := by
    set_option maxRecDepth 100000 in decide
  rw [he] at h
  exact h

theorem canvasWidth_eq {columns : Int} (h1 : -14876406511056089 ≤ columns)
    (h2 : columns ≤ 14876406511056090) :
    canvasWidth contactSheetItem columns = columns * 600 + (columns - 1) * 20 := by
  simp only [canvasWidth, contactSheetItem, addInt, mulInt, subInt, wrapInt]
  omega

theorem canvasHeight_eq {rows : Int} (h1 : -14146276130145361 ≤ rows)
    (h2 : rows ≤ 14146276130145361) :
    canvasHeight contactSheetItem rows = rows * 600 + rows * 52 := by
  simp only [canvasHeight, contactSheetItem, addInt, mulInt, wrapInt]
  omega

theorem destRect_eq {row col : Int} (hr1 : 0 ≤ row) (hr2 : row < 14146276130145361)
    (hc1 : 0 ≤ col) (hc2 : col < 14876406511056090) :
    destRect ⟨rectFromOrigin 600 600, []⟩ contactSheetItem row col =
      ⟨⟨col * 600 + col * 20, row * 600 + row * 52⟩,
        ⟨col * 600 + col * 20 + 600, row * 600 + row * 52 + 600⟩⟩ := by
  simp only [destRect, contactSheetItem, rectFromOrigin, Rectangle.Size, Point.Add, addInt,
    mulInt, subInt, wrapInt, Rectangle.mk.injEq, Point.mk.injEq]
  refine ⟨⟨?_, ?_⟩, ⟨?_, ?_⟩⟩ <;> omega

/-! ## The loops of `createImageGrid` -/

section Grid

variable {E : Env} {F : List String} {I : ContactSheetItem}

theorem cellBody_ok {row col : Int} {cv : RGBA} {dec : List String} {f : Nat} {nm : String}
    (hget : F.get? f = some nm) (hdec : E.decodeErr nm = none) :
    cellBody E F I row col ⟨cv, (f : Int), dec⟩ =
      .next ⟨⟨cv.Rect, cv.cells ++ [cellAt I row col nm]⟩, (f : Int) + 1, dec ++ [nm]⟩ := by
  have hf : f < F.length := by
    by_contra hc
    rw [List.get?_eq_none.2 (by omega)] at hget
    cases hget
  have h1 : ¬ ((f : Int) ≥ (F.length : Int)) := by omega
  have h2 : ¬ ((f : Int) < 0) := by omega
  simp only [cellBody, h1, if_false, index?, h2, Int.toNat_ofNat, hget, resizeImage, hdec,
    appendImage, cellAt, resizedImage]

theorem cellBody_fail {row col : Int} {cv : RGBA} {dec : List String} {f : Nat}
    {bad : String} {e : GoError}
    (hget : F.get? f = some bad) (hdec : E.decodeErr bad = some e) :
    cellBody E F I row col ⟨cv, (f : Int), dec⟩ =
      .returned 0 (some e) ⟨cv, (f : Int), dec ++ [bad]⟩ := by
  have hf : f < F.length := by
    by_contra hc
    rw [List.get?_eq_none.2 (by omega)] at hget
    cases hget
  have h1 : ¬ ((f : Int) ≥ (F.length : Int)) := by omega
  have h2 : ¬ ((f : Int) < 0) := by omega
  simp only [cellBody, h1, if_false, index?, h2, Int.toNat_ofNat, hget, resizeImage, hdec]

theorem cellBody_exhausted {row col : Int} {cv : RGBA} {dec : List String} {f : Nat}
    (hf : F.length ≤ f) :
    cellBody E F I row col ⟨cv, (f : Int), dec⟩ =
      .returned (-1) none ⟨cv, (f : Int), dec⟩ := by
  have h1 : (f : Int) ≥ (F.length : Int) := by omega
  simp only [cellBody, h1, if_true]

theorem placeFrom_append (c l : Nat) (a b : List String) :
    placeFrom I c l (a ++ b) = placeFrom I c l a ++ placeFrom I c (l + a.length) b := by
  induction a generalizing l with
  | nil => simp [placeFrom]
  | cons nm a ih =>
    have h := ih (l + 1)
    rw [show l + 1 + a.length = l + (a.length + 1) by omega] at h
    rw [List.cons_append]
    simp only [placeFrom, List.length_cons, h, List.cons_append]

theorem placeRow_eq_placeFrom (c r : Nat) (col : Nat) (names : List String)
    (h : col + names.length ≤ c) :
    placeRow I (r : Int) (col : Int) names = placeFrom I c (r * c + col) names := by
  induction names generalizing col with
  | nil => simp [placeRow, placeFrom]
  | cons nm names ih =>
    simp only [List.length_cons] at h
    have hc : col < c := by omega
    have hdiv : (r * c + col) / c = r := by
      rw [Nat.mul_comm, Nat.mul_add_div (by omega), Nat.div_eq_of_lt hc, Nat.add_zero]
    have hmod : (r * c + col) % c = col := by
      rw [Nat.mul_comm, Nat.mul_add_mod, Nat.mod_eq_of_lt hc]
    simp only [placeRow, placeFrom, hdiv, hmod]
    have := ih (col + 1) (by omega)
    rw [show ((col + 1 : Nat) : Int) = (col : Int) + 1 by push_cast; rfl] at this
    rw [this, show r * c + (col + 1) = r * c + col + 1 by omega]

theorem get?_of_drop_eq_cons {f : Nat} {nm : String} {t : List String}
    (h : F.drop f = nm :: t) :
    F.get? f = some nm ∧ F.drop (f + 1) = t := by
  have h1 : (F.drop f).head? = some nm := by rw [h]; rfl
  have h2 : (F.drop f).tail = t := by rw [h]; rfl
  constructor
  · rw [← h1, List.head?_drop]; simp
  · rw [← h2, List.tail_drop]

/-- A row whose files all decode is filled completely. -/
theorem colLoop_next (row : Int) (good rest : List String) (col : Int) (f : Nat) (cv : RGBA)
    (dec : List String) (hdrop : F.drop f = good ++ rest)
    (hgood : ∀ nm ∈ good, E.decodeErr nm = none) :
    colLoop E F I row good.length col ⟨cv, (f : Int), dec⟩ =
      .next ⟨⟨cv.Rect, cv.cells ++ placeRow I row col good⟩,
        ((f + good.length : Nat) : Int), dec ++ good⟩ := by
  induction good generalizing col f cv dec with
  | nil => simp [colLoop, placeRow]
  | cons nm good ih =>
    obtain ⟨hget, hdrop1⟩ := get?_of_drop_eq_cons (by simpa using hdrop)
    have hdec := hgood nm (by simp)
    simp only [List.length_cons, colLoop, cellBody_ok hget hdec]
    have := ih (col + 1) (f + 1) ⟨cv.Rect, cv.cells ++ [cellAt I row col nm]⟩ (dec ++ [nm])
      hdrop1 (fun x hx => hgood x (by simp [hx]))
    rw [show ((f + 1 : Nat) : Int) = (f : Int) + 1 by push_cast; rfl] at this
    rw [this]
    simp only [placeRow, List.append_assoc, List.singleton_append]
    rw [show f + 1 + good.length = f + (good.length + 1) by omega]

/-- A row that meets the end of the input or an undecodable file returns what the
loop body returns there. -/
theorem colLoop_halt (row : Int) (good : List String) (rest : List String) (k : Nat)
    (col : Int) (f : Nat) (cv : RGBA) (dec : List String)
    (idx : Int) (err : Option GoError) (extra : List String)
    (hdrop : F.drop f = good ++ rest)
    (hgood : ∀ nm ∈ good, E.decodeErr nm = none)
    (hstop : ∀ (row col : Int) (cv : RGBA) (dec : List String),
      cellBody E F I row col ⟨cv, ((f + good.length : Nat) : Int), dec⟩ =
        .returned idx err ⟨cv, ((f + good.length : Nat) : Int), dec ++ extra⟩)
    (hk : good.length < k) :
    colLoop E F I row k col ⟨cv, (f : Int), dec⟩ =
      .returned idx err ⟨⟨cv.Rect, cv.cells ++ placeRow I row col good⟩,
        ((f + good.length : Nat) : Int), dec ++ good ++ extra⟩ := by
  induction good generalizing k col f cv dec with
  | nil =>
    obtain ⟨k, rfl⟩ : ∃ k1, k = k1 + 1 := ⟨k - 1, by simp at hk; omega⟩
    have := hstop row col cv dec
    simp only [List.length_nil, Nat.add_zero] at this
    simp [colLoop, this, placeRow]
  | cons nm good ih =>
    obtain ⟨k, rfl⟩ : ∃ k1, k = k1 + 1 := ⟨k - 1, by simp at hk; omega⟩
    obtain ⟨hget, hdrop1⟩ := get?_of_drop_eq_cons (by simpa using hdrop)
    have hdec := hgood nm (by simp)
    simp only [colLoop, cellBody_ok hget hdec]
    have hlen : f + 1 + good.length = f + (nm :: good).length := by
      simp only [List.length_cons]; omega
    have := ih k (col + 1) (f + 1) ⟨cv.Rect, cv.cells ++ [cellAt I row col nm]⟩ (dec ++ [nm])
      hdrop1 (fun x hx => hgood x (by simp [hx]))
      (by intro r c v d; rw [hlen]; exact hstop r c v d)
      (by simp only [List.length_cons] at hk; omega)
    rw [show ((f + 1 : Nat) : Int) = (f : Int) + 1 by push_cast; rfl] at this
    rw [this, hlen]
    simp only [placeRow, List.append_assoc, List.singleton_append]

/-- Rows whose files all decode are filled completely, in row-major order. -/
theorem rowLoop_next (c k : Nat) (row : Nat) (f : Nat) (cv : RGBA) (dec : List String)
    (good rest : List String) (hdrop : F.drop f = good ++ rest)
    (hgood : ∀ nm ∈ good, E.decodeErr nm = none) (hlen : good.length = k * c) :
    rowLoop E F I (c : Int) k (row : Int) ⟨cv, (f : Int), dec⟩ =
      .next ⟨⟨cv.Rect, cv.cells ++ placeFrom I c (row * c) good⟩,
        ((f + k * c : Nat) : Int), dec ++ good⟩ := by
  induction k generalizing row f cv dec good with
  | zero =>
    have : good = [] := List.length_eq_zero.1 (by simpa using hlen)
    subst this
    simp [rowLoop, placeFrom]
  | succ k ih =>
    have hc : c ≤ good.length := by rw [hlen, Nat.succ_mul]; omega
    have hsplit : good = good.take c ++ good.drop c := (List.take_append_drop c good).symm
    have hl1 : (good.take c).length = c := by simp [List.length_take, hc]
    have hl2 : (good.drop c).length = k * c := by
      rw [List.length_drop, hlen, Nat.succ_mul]; omega
    have hd1 : F.drop f = good.take c ++ (good.drop c ++ rest) := by
      rw [← List.append_assoc, List.take_append_drop]; exact hdrop
    have hd2 : F.drop (f + c) = good.drop c ++ rest := by
      have := congrArg (List.drop c) hd1
      rw [List.drop_drop, List.drop_left' hl1] at this
      rw [← this]
    have hcol := colLoop_next (E := E) (I := I) (row : Int) (good.take c)
      (good.drop c ++ rest) 0 f cv dec hd1 (fun x hx => hgood x (List.mem_of_mem_take hx))
    rw [hl1] at hcol
    have hrow := placeRow_eq_placeFrom (I := I) c row 0 (good.take c) (by omega)
    simp only [Nat.cast_zero, Nat.add_zero] at hrow
    simp only [rowLoop, Int.toNat_ofNat, hcol, hrow]
    have := ih (row + 1) (f + c) ⟨cv.Rect, cv.cells ++ placeFrom I c (row * c) (good.take c)⟩
      (dec ++ good.take c) (good.drop c) hd2 (fun x hx => hgood x (List.mem_of_mem_drop hx)) hl2
    rw [show ((row + 1 : Nat) : Int) = (row : Int) + 1 by push_cast; rfl] at this
    rw [this]
    have hpf := placeFrom_append (I := I) c (row * c) (good.take c) (good.drop c)
    rw [List.take_append_drop, hl1] at hpf
    simp only [List.append_assoc, List.take_append_drop]
    rw [hpf, show (row + 1) * c = row * c + c by ring,
      show f + c + k * c = f + (k + 1) * c by ring]

/-- Rows that meet the end of the input or an undecodable file return what the
loop body returns there. -/
theorem rowLoop_halt (c k : Nat) (row : Nat) (f : Nat) (cv : RGBA) (dec : List String)
    (good rest : List String) (idx : Int) (err : Option GoError) (extra : List String)
    (hdrop : F.drop f = good ++ rest)
    (hgood : ∀ nm ∈ good, E.decodeErr nm = none)
    (hstop : ∀ (row col : Int) (cv : RGBA) (dec : List String),
      cellBody E F I row col ⟨cv, ((f + good.length : Nat) : Int), dec⟩ =
        .returned idx err ⟨cv, ((f + good.length : Nat) : Int), dec ++ extra⟩)
    (hlen : good.length < k * c) :
    rowLoop E F I (c : Int) k (row : Int) ⟨cv, (f : Int), dec⟩ =
      .returned idx err ⟨⟨cv.Rect, cv.cells ++ placeFrom I c (row * c) good⟩,
        ((f + good.length : Nat) : Int), dec ++ good ++ extra⟩ := by
  induction k generalizing row f cv dec good with
  | zero => simp at hlen
  | succ k ih =>
    by_cases hc : good.length < c
    · have hcol := colLoop_halt (E := E) (I := I) (row : Int) good rest c 0 f cv dec
        idx err extra hdrop hgood hstop hc
      have hrow := placeRow_eq_placeFrom (I := I) c row 0 good (by omega)
      simp only [Nat.cast_zero, Nat.add_zero] at hrow
      simp only [rowLoop, Int.toNat_ofNat, hcol, hrow]
    · have hc : c ≤ good.length := Nat.le_of_not_lt hc
      have hl1 : (good.take c).length = c := by simp [List.length_take, hc]
      have hl2 : (good.drop c).length < k * c := by
        rw [List.length_drop]; rw [Nat.succ_mul] at hlen; omega
      have hd1 : F.drop f = good.take c ++ (good.drop c ++ rest) := by
        rw [← List.append_assoc, List.take_append_drop]; exact hdrop
      have hd2 : F.drop (f + c) = good.drop c ++ rest := by
        have := congrArg (List.drop c) hd1
        rw [List.drop_drop, List.drop_left' hl1] at this
        rw [← this]
      have hcol := colLoop_next (E := E) (I := I) (row : Int) (good.take c)
        (good.drop c ++ rest) 0 f cv dec hd1 (fun x hx => hgood x (List.mem_of_mem_take hx))
      rw [hl1] at hcol
      have hrow := placeRow_eq_placeFrom (I := I) c row 0 (good.take c) (by omega)
      simp only [Nat.cast_zero, Nat.add_zero] at hrow
      simp only [rowLoop, Int.toNat_ofNat, hcol, hrow]
      have hpos : f + c + (good.drop c).length = f + good.length := by
        rw [List.length_drop]; omega
      have := ih (row + 1) (f + c)
        ⟨cv.Rect, cv.cells ++ placeFrom I c (row * c) (good.take c)⟩
        (dec ++ good.take c) (good.drop c) hd2 (fun x hx => hgood x (List.mem_of_mem_drop hx))
        (by intro r cl v d; rw [hpos]; exact hstop r cl v d) hl2
      rw [show ((row + 1 : Nat) : Int) = (row : Int) + 1 by push_cast; rfl] at this
      rw [this, hpos]
      have hpf := placeFrom_append (I := I) c (row * c) (good.take c) (good.drop c)
      rw [List.take_append_drop, hl1] at hpf
      simp only [List.append_assoc, List.take_append_drop]
      rw [hpf, show (row + 1) * c = row * c + c by ring]

/-- A page whose `R * c` files all decode is filled and the advanced cursor returned. -/
theorem createImageGrid_full (R c : Nat) (f : Nat) (cv : RGBA) (dec : List String)
    (good rest : List String) (hdrop : F.drop f = good ++ rest)
    (hgood : ∀ nm ∈ good, E.decodeErr nm = none) (hlen : good.length = R * c) :
    createImageGrid E cv F (R : Int) (c : Int) (f : Int) I dec =
      .returned ((f + R * c : Nat) : Int) none
        ⟨⟨cv.Rect, cv.cells ++ placeFrom I c 0 good⟩, ((f + R * c : Nat) : Int), dec ++ good⟩ := by
  have := rowLoop_next (E := E) (I := I) c R 0 f cv dec good rest hdrop hgood hlen
  simp only [Nat.cast_zero, Nat.zero_mul] at this
  simp only [createImageGrid, Int.toNat_ofNat, this]

/-- A page that meets the end of the input or an undecodable file. -/
theorem createImageGrid_halt (R c : Nat) (f : Nat) (cv : RGBA) (dec : List String)
    (good rest : List String) (idx : Int) (err : Option GoError) (extra : List String)
    (hdrop : F.drop f = good ++ rest)
    (hgood : ∀ nm ∈ good, E.decodeErr nm = none)
    (hstop : ∀ (row col : Int) (cv : RGBA) (dec : List String),
      cellBody E F I row col ⟨cv, ((f + good.length : Nat) : Int), dec⟩ =
        .returned idx err ⟨cv, ((f + good.length : Nat) : Int), dec ++ extra⟩)
    (hlen : good.length < R * c) :
    createImageGrid E cv F (R : Int) (c : Int) (f : Int) I dec =
      .returned idx err
        ⟨⟨cv.Rect, cv.cells ++ placeFrom I c 0 good⟩, ((f + good.length : Nat) : Int),
          dec ++ good ++ extra⟩ := by
  have := rowLoop_halt (E := E) (I := I) c R 0 f cv dec good rest idx err extra
    hdrop hgood hstop hlen
  simp only [Nat.cast_zero, Nat.zero_mul] at this
  simp only [createImageGrid, Int.toNat_ofNat, this]

end Grid

/-! ## The page number of line 104 -/

theorem divMant_mul (j b : Nat) (hb : 0 < b) (hj : j < 2 ^ 53) :
    divMant (j * b) b = j * 2 ^ (divShift b + 1) := by
  unfold divMant
  simp only []
  generalize divShift b = t
  have hq : j * b * 2 ^ t / b = j * 2 ^ t := by
    rw [Nat.mul_right_comm, Nat.mul_div_cancel _ hb]
  have hr : j * b * 2 ^ t % b = 0 := by
    rw [Nat.mul_right_comm]; exact Nat.mul_mod_left _ _
  rw [hq, hr, if_pos rfl, Nat.add_zero, show 2 * (j * 2 ^ t) = j * 2 ^ (t + 1) by ring]
  exact roundNat53_mul_pow hj

/-- On an exact multiple below `2^53` the float quotient is the exact quotient. -/
theorem ceilDivFloat64_mul (j b : Nat) (hb : 0 < b) (hj : 0 < j) (hlt : j * b < 2 ^ 53) :
    ceilDivFloat64 (float64OfInt ((j * b : Nat) : Int)) (float64OfInt (b : Int)) =
      some (j : Int) := by
  have hble : b ≤ j * b := Nat.le_mul_of_pos_left b hj
  have hjlt : j < 2 ^ 53 := lt_of_le_of_lt (Nat.le_mul_of_pos_right j hb) hlt
  rw [float64OfInt_natCast, float64OfInt_natCast, roundNat53_of_lt hlt,
    roundNat53_of_lt (lt_of_le_of_lt hble hlt)]
  unfold ceilDivFloat64
  have hb0 : ¬ ((b : Int) = 0) := by omega
  rw [if_neg hb0]
  have hs1 : Int.sign (b : Int) = 1 := Int.sign_eq_one_of_pos (by exact_mod_cast hb)
  have hs2 : Int.sign ((j * b : Nat) : Int) = 1 :=
    Int.sign_eq_one_of_pos (by exact_mod_cast Nat.mul_pos hj hb)
  have hsign : 0 ≤ Int.sign ((j * b : Nat) : Int) * Int.sign (b : Int) := by
    rw [hs1, hs2]; norm_num
  simp only [hsign, if_true, Int.natAbs_ofNat, divMant_mul j b hb hjlt]
  have hu : 0 < 2 ^ (divShift b + 1) := Nat.pow_pos (by norm_num)
  generalize 2 ^ (divShift b + 1) = u at *
  have : (j * u + u - 1) / u = j := by
    apply Nat.div_eq_of_lt_le
    · omega
    · rw [Nat.succ_mul]; omega
  rw [this]

/-- The sentinel `-1` divided by a capacity of at least two rounds up to zero. -/
theorem ceilDivFloat64_sentinel (b : Nat) (hb : 2 ≤ b) :
    ceilDivFloat64 (float64OfInt (-1)) (float64OfInt (b : Int)) = some 0 := by
  have hx : float64OfInt (-1) = -1 := by decide
  rw [hx, float64OfInt_natCast]
  have hb2 : 2 ≤ roundNat53 b := by
    have := roundNat53_ge_pow (n := b) (k := 1) (by simpa using hb)
    simpa using this
  generalize roundNat53 b = y at *
  unfold ceilDivFloat64
  have hy0 : ¬ ((y : Int) = 0) := by omega
  rw [if_neg hy0]
  have hs1 : Int.sign (y : Int) = 1 := Int.sign_eq_one_of_pos (by omega)
  have hsign : ¬ (0 ≤ Int.sign (-1) * Int.sign (y : Int)) := by
    rw [hs1]; decide
  simp only [hsign, if_false, Int.natAbs_ofNat]
  have hm : divMant (Int.natAbs (-1)) y < 2 ^ (divShift y + 1) := by
    unfold divMant
    simp only []
    generalize divShift y = t
    have hle : 2 * (Int.natAbs (-1) * 2 ^ t / y) +
        (if Int.natAbs (-1) * 2 ^ t % y = 0 then 0 else 1) ≤ 2 ^ t := by
      have h1 : Int.natAbs (-1) = 1 := rfl
      rw [h1, Nat.one_mul]
      have hdm := Nat.div_add_mod (2 ^ t) y
      have hmul : 2 * (2 ^ t / y) ≤ y * (2 ^ t / y) := Nat.mul_le_mul_right _ hb2
      split_ifs with h0 <;> omega
    have := roundNat53_le_pow hle
    have hlt : 2 ^ t < 2 ^ (t + 1) := Nat.pow_lt_pow_right (by norm_num) (by omega)
    omega
  rw [Nat.div_eq_of_lt hm]
  rfl

theorem imageNumOf_full (env : Env) (R c j : Nat) (hcap : 0 < R * c) (hj : 0 < j)
    (hlt : j * (R * c) < 2 ^ 53) :
    imageNumOf env ((j * (R * c) : Nat) : Int) (R : Int) (c : Int) = (j : Int) := by
  unfold imageNumOf
  rw [show ((R : Int) * (c : Int)) = ((R * c : Nat) : Int) by push_cast; rfl,
    ceilDivFloat64_mul j (R * c) hcap hj hlt]

theorem imageNumOf_sentinel (env : Env) (R c : Nat) (hcap : 2 ≤ R * c) :
    imageNumOf env (-1) (R : Int) (c : Int) = 0 := by
  unfold imageNumOf
  rw [show ((R : Int) * (c : Int)) = ((R * c : Nat) : Int) by push_cast; rfl,
    ceilDivFloat64_sentinel (R * c) hcap]

/-! ## The page loop -/

section Pages

variable {E : Env} {F : List String} {I : ContactSheetItem} {P : Point}
  {R c : Nat} {O : String}

theorem fullPages_succ (p : Nat) :
    fullPages E F I P R c (p + 1) =
      fullPages E F I P R c p ++
        [pageAt E F I P R c p (((p + 1) * (R * c) : Nat) : Int)] := by
  simp [fullPages, List.range_succ]

theorem take_block (l : List String) (p cap : Nat) :
    l.take (p * cap) ++ (l.drop (p * cap)).take cap = l.take ((p + 1) * cap) := by
  rw [Nat.succ_mul, List.take_add]

theorem mem_take_of_mem_block {l : List String} {p q cap : Nat} (hpq : p + 1 ≤ q) {x : String}
    (hx : x ∈ (l.drop (p * cap)).take cap) : x ∈ l.take (q * cap) := by
  have h1 : x ∈ l.take ((p + 1) * cap) := by
    rw [← take_block]; exact List.mem_append_right _ hx
  have h2 : (p + 1) * cap ≤ q * cap := Nat.mul_le_mul_right cap hpq
  have h3 : l.take ((p + 1) * cap) = (l.take (q * cap)).take ((p + 1) * cap) := by
    rw [List.take_take, Nat.min_eq_left h2]
  rw [h3] at h1
  exact List.mem_of_mem_take h1

/-- Full pages whose files decode and whose canvases encode are processed one per
loop iteration. -/
theorem generateLoop_skip
    (hNew : NewRGBA ⟨⟨0, 0⟩, P⟩ = some ⟨⟨⟨0, 0⟩, P⟩, []⟩)
    (hcap : 0 < R * c) (q : Nat) (hq : q * (R * c) ≤ F.length)
    (hEnc : ∀ p, p < q → E.encodeErr ⟨⟨⟨0, 0⟩, P⟩,
      placeFrom I c 0 ((F.drop (p * (R * c))).take (R * c))⟩ = none)
    (hgood : ∀ nm ∈ F.take (q * (R * c)), E.decodeErr nm = none) :
    ∀ (d p fuel : Nat), p + d = q →
      generateLoop E F O (R : Int) (c : Int) P I (fuel + d)
          ((p * (R * c) : Nat) : Int) (stateAt E F I P R c p) =
        generateLoop E F O (R : Int) (c : Int) P I fuel
          ((q * (R * c) : Nat) : Int) (stateAt E F I P R c q) := by
  intro d
  induction d with
  | zero =>
    intro p fuel hpq
    have : p = q := by omega
    subst this
    rfl
  | succ d ih =>
    intro p fuel hpq
    have hp1 : (p + 1) * (R * c) ≤ q * (R * c) := Nat.mul_le_mul_right _ (by omega)
    have hsucc : (p + 1) * (R * c) = p * (R * c) + R * c := Nat.succ_mul _ _
    have hcond : ((p * (R * c) : Nat) : Int) ≥ 0 ∧
        ((p * (R * c) : Nat) : Int) < (F.length : Int) := by
      constructor
      · positivity
      · have : p * (R * c) < F.length := by omega
        exact_mod_cast this
    have hlen : ((F.drop (p * (R * c))).take (R * c)).length = R * c := by
      rw [List.length_take, List.length_drop]; omega
    have hgrid := createImageGrid_full (E := E) (F := F) (I := I)
      R c (p * (R * c)) ⟨⟨⟨0, 0⟩, P⟩, []⟩ (F.take (p * (R * c)))
      ((F.drop (p * (R * c))).take (R * c)) ((F.drop (p * (R * c))).drop (R * c))
      (List.take_append_drop _ _).symm
      (fun x hx => hgood x (mem_take_of_mem_block (by omega) hx)) hlen
    have henc := hEnc p (by omega)
    rw [← ih (p + 1) fuel (by omega), show fuel + (d + 1) = (fuel + d) + 1 by omega,
      generateLoop, if_pos hcond]
    simp only [hNew, stateAt, hgrid, AddNextImage, henc, List.nil_append, fullPages_succ, pageAt,
      take_block, hsucc, List.range_succ (p + 1), List.map_append, List.map_cons, List.map_nil]

theorem ceil_div_eq (q cap r : Nat) (hcap : 0 < cap) (hr : r < cap) :
    (q * cap + r + cap - 1) / cap = q + (if r = 0 then 0 else 1) := by
  split_ifs with h
  · apply Nat.div_eq_of_lt_le
    · show q * cap ≤ _
      omega
    · show _ < (q + 1) * cap
      rw [Nat.add_mul, Nat.one_mul]; omega
  · apply Nat.div_eq_of_lt_le
    · show (q + 1) * cap ≤ _
      rw [Nat.add_mul, Nat.one_mul]; omega
    · show _ < (q + 1 + 1) * cap
      rw [Nat.add_mul, Nat.add_mul, Nat.one_mul]; omega

theorem div_mul_add_mod_lt (n cap : Nat) (hcap : 0 < cap) :
    n / cap * cap ≤ n ∧ n - n / cap * cap = n % cap ∧ n % cap < cap := by
  have h1 := Nat.div_add_mod n cap
  have h2 := Nat.mod_lt n hcap
  rw [Nat.mul_comm] at h1
  refine ⟨by omega, by omega, h2⟩

/-- A run in which every file decodes and every canvas encodes. -/
theorem generateLoop_success
    (hNew : NewRGBA ⟨⟨0, 0⟩, P⟩ = some ⟨⟨⟨0, 0⟩, P⟩, []⟩)
    (hEnc : ∀ img : RGBA, img.Rect = ⟨⟨0, 0⟩, P⟩ → E.encodeErr img = none)
    (hcap : 0 < R * c) (hdec : ∀ nm ∈ F, E.decodeErr nm = none)
    (fuel : Nat) (hfuel : F.length / (R * c) + 2 ≤ fuel) :
    generateLoop E F O (R : Int) (c : Int) P I fuel
        ((0 * (R * c) : Nat) : Int) (stateAt E F I P R c 0) =
      some (successRun E F O I P R c) := by
  obtain ⟨hq, hsub, hmodlt⟩ := div_mul_add_mod_lt F.length (R * c) hcap
  obtain ⟨f1, rfl⟩ : ∃ f1, fuel = f1 + 2 + F.length / (R * c) :=
    ⟨fuel - 2 - F.length / (R * c), by omega⟩
  rw [generateLoop_skip hNew hcap (F.length / (R * c)) hq (fun p _ => hEnc _ rfl)
    (fun x hx => hdec x (List.mem_of_mem_take hx)) (F.length / (R * c)) 0 (f1 + 2)
    (by omega)]
  by_cases hmod : F.length % (R * c) = 0
  · have hqn : F.length / (R * c) * (R * c) = F.length := by omega
    have hcond : ¬ (((F.length / (R * c) * (R * c) : Nat) : Int) ≥ 0 ∧
        ((F.length / (R * c) * (R * c) : Nat) : Int) < (F.length : Int)) := by
      rw [hqn]; omega
    rw [generateLoop, if_neg hcond]
    simp only [stateAt, successRun, hmod, if_true, hqn, List.take_length, List.length_nil,
      Nat.add_zero, List.append_nil]
  · have hlt : F.length / (R * c) * (R * c) < F.length := by omega
    have hcond : ((F.length / (R * c) * (R * c) : Nat) : Int) ≥ 0 ∧
        ((F.length / (R * c) * (R * c) : Nat) : Int) < (F.length : Int) := by
      constructor
      · positivity
      · exact_mod_cast hlt
    have hpos : F.length / (R * c) * (R * c) +
        (F.drop (F.length / (R * c) * (R * c))).length = F.length := by
      rw [List.length_drop]; omega
    have hgrid := createImageGrid_halt (E := E) (F := F) (I := I)
      R c (F.length / (R * c) * (R * c)) ⟨⟨⟨0, 0⟩, P⟩, []⟩
      (F.take (F.length / (R * c) * (R * c)))
      (F.drop (F.length / (R * c) * (R * c))) [] (-1) none []
      (List.append_nil _).symm (fun x hx => hdec x (List.mem_of_mem_drop hx))
      (by
        intro r cl v d
        rw [hpos, List.append_nil]
        exact cellBody_exhausted (Nat.le_refl _))
      (by rw [List.length_drop]; omega)
    have henc := hEnc ⟨⟨⟨0, 0⟩, P⟩,
      placeFrom I c 0 (F.drop (F.length / (R * c) * (R * c)))⟩ rfl
    have hexit : ¬ ((-1 : Int) ≥ 0 ∧ (-1 : Int) < (F.length : Int)) := by omega
    have htake : (F.drop (F.length / (R * c) * (R * c))).take (R * c) =
        F.drop (F.length / (R * c) * (R * c)) :=
      List.take_of_length_le (by rw [List.length_drop]; omega)
    rw [generateLoop, if_pos hcond]
    simp only [hNew, stateAt, hgrid, AddNextImage, henc, List.nil_append, List.append_nil,
      List.take_append_drop]
    rw [generateLoop, if_neg hexit]
    simp only [successRun, hmod, if_false, pageAt, htake, List.length_singleton]

/-- A run whose first undecodable file has index `k`, all earlier pages encoding. -/
theorem generateLoop_fail
    (hNew : NewRGBA ⟨⟨0, 0⟩, P⟩ = some ⟨⟨⟨0, 0⟩, P⟩, []⟩)
    (hcap : 0 < R * c) (k : Nat) (bad : String) (e : GoError)
    (hEnc : ∀ p, p < k / (R * c) → E.encodeErr ⟨⟨⟨0, 0⟩, P⟩,
      placeFrom I c 0 ((F.drop (p * (R * c))).take (R * c))⟩ = none)
    (hgood : ∀ nm ∈ F.take k, E.decodeErr nm = none)
    (hbad : F.get? k = some bad) (he : E.decodeErr bad = some e)
    (fuel : Nat) (hfuel : k / (R * c) + 1 ≤ fuel) :
    generateLoop E F O (R : Int) (c : Int) P I fuel
        ((0 * (R * c) : Nat) : Int) (stateAt E F I P R c 0) =
      some (failRun E F I P R c k e) := by
  have hk : k < F.length := by
    by_contra hc
    rw [List.get?_eq_none.2 (by omega)] at hbad
    cases hbad
  obtain ⟨hq, hsub, hmodlt⟩ := div_mul_add_mod_lt k (R * c) hcap
  obtain ⟨f1, rfl⟩ : ∃ f1, fuel = f1 + 1 + k / (R * c) := ⟨fuel - 1 - k / (R * c), by omega⟩
  have htk : F.take (k / (R * c) * (R * c)) ++
      (F.drop (k / (R * c) * (R * c))).take (k - k / (R * c) * (R * c)) =
      F.take k := by
    rw [← List.take_add]; congr 1; omega
  rw [generateLoop_skip hNew hcap (k / (R * c)) (by omega) hEnc
    (fun x hx => hgood x (by
      rw [← htk]; exact List.mem_append_left _ hx)) (k / (R * c)) 0 (f1 + 1) (by omega)]
  have hcond : ((k / (R * c) * (R * c) : Nat) : Int) ≥ 0 ∧
      ((k / (R * c) * (R * c) : Nat) : Int) < (F.length : Int) := by
    constructor
    · positivity
    · have : k / (R * c) * (R * c) < F.length := by omega
      exact_mod_cast this
  have hlen : ((F.drop (k / (R * c) * (R * c))).take (k - k / (R * c) * (R * c))).length =
      k - k / (R * c) * (R * c) := by
    rw [List.length_take, List.length_drop]; omega
  have hpos : k / (R * c) * (R * c) +
      ((F.drop (k / (R * c) * (R * c))).take (k - k / (R * c) * (R * c))).length = k := by
    rw [hlen]; omega
  have hgrid := createImageGrid_halt (E := E) (F := F) (I := I)
    R c (k / (R * c) * (R * c)) ⟨⟨⟨0, 0⟩, P⟩, []⟩
    (F.take (k / (R * c) * (R * c)))
    ((F.drop (k / (R * c) * (R * c))).take (k - k / (R * c) * (R * c)))
    ((F.drop (k / (R * c) * (R * c))).drop (k - k / (R * c) * (R * c)))
    0 (some e) [bad]
    (List.take_append_drop _ _).symm
    (fun x hx => hgood x (by rw [← htk]; exact List.mem_append_right _ hx))
    (by
      intro r cl v d
      rw [hpos]
      exact cellBody_fail hbad he)
    (by rw [hlen]; omega)
  have hk1 : F.take k ++ [bad] = F.take (k + 1) := by
    rw [List.take_succ, ← List.get?_eq_getElem?, hbad]; rfl
  rw [generateLoop, if_pos hcond]
  simp only [hNew, stateAt, hgrid, failRun, htk, hk1]

/-! ### Shape of the successful run -/

theorem placeFrom_length (c l : Nat) (names : List String) :
    (placeFrom I c l names).length = names.length := by
  induction names generalizing l with
  | nil => rfl
  | cons nm names ih => simp [placeFrom, ih]

theorem placeFrom_caption (c l : Nat) (names : List String) :
    (placeFrom I c l names).map (fun cell => cell.caption) = names := by
  induction names generalizing l with
  | nil => rfl
  | cons nm names ih => simp [placeFrom, ih, cellAt]

theorem placeFrom_getElem? (c l i : Nat) (names : List String) :
    (placeFrom I c l names)[i]? =
      (names[i]?).map (fun nm => cellAt I (((l + i) / c : Nat) : Int)
        (((l + i) % c : Nat) : Int) nm) := by
  induction names generalizing l i with
  | nil => simp [placeFrom]
  | cons nm names ih =>
    cases i with
    | zero => simp [placeFrom]
    | succ i =>
      simp only [placeFrom, List.getElem?_cons_succ, ih]
      rw [show l + 1 + i = l + (i + 1) by omega]

theorem fullPages_length (p : Nat) : (fullPages E F I P R c p).length = p := by
  simp [fullPages]

/-- Every page of the successful run holds one block of `R * c` consecutive files. -/
theorem successRun_page (hcap : 0 < R * c) (j : Nat) (hj : j * (R * c) < F.length) :
    ∃ name, (successRun E F O I P R c).pdf.images[j]? =
      some ⟨name, ⟨⟨⟨0, 0⟩, P⟩,
        placeFrom I c 0 ((F.drop (j * (R * c))).take (R * c))⟩⟩ := by
  obtain ⟨hq, hsub, hmodlt⟩ := div_mul_add_mod_lt F.length (R * c) hcap
  have hjq : j ≤ F.length / (R * c) := by
    rw [Nat.le_div_iff_mul_le hcap]; omega
  simp only [successRun]
  rcases Nat.lt_or_eq_of_le hjq with hlt | heq
  · refine ⟨(pageAt E F I P R c j (((j + 1) * (R * c) : Nat) : Int)).imageName, ?_⟩
    rw [List.getElem?_append_left (by rw [fullPages_length]; exact hlt)]
    simp only [fullPages, List.getElem?_map, List.getElem?_range hlt, Option.map_some', pageAt]
  · have hmod : ¬ F.length % (R * c) = 0 := by
      intro h0
      rw [heq] at hj
      omega
    refine ⟨(pageAt E F I P R c j (-1)).imageName, ?_⟩
    rw [List.getElem?_append_right (by rw [fullPages_length]; omega), fullPages_length, ← heq,
      Nat.sub_self, if_neg hmod]
    simp only [List.getElem?_cons_zero, pageAt]

theorem successRun_mem_page (hcap : 0 < R * c) (pg : Page)
    (hpg : pg ∈ (successRun E F O I P R c).pdf.images) :
    ∃ j name, j * (R * c) < F.length ∧ pg = ⟨name, ⟨⟨⟨0, 0⟩, P⟩,
        placeFrom I c 0 ((F.drop (j * (R * c))).take (R * c))⟩⟩ := by
  obtain ⟨hq, hsub, hmodlt⟩ := div_mul_add_mod_lt F.length (R * c) hcap
  simp only [successRun, List.mem_append] at hpg
  rcases hpg with h | h
  · simp only [fullPages, List.mem_map, List.mem_range] at h
    obtain ⟨j, hj, rfl⟩ := h
    refine ⟨j, _, ?_, rfl⟩
    have : (j + 1) * (R * c) ≤ F.length / (R * c) * (R * c) :=
      Nat.mul_le_mul_right _ hj
    rw [Nat.succ_mul] at this
    omega
  · by_cases hmod : F.length % (R * c) = 0
    · rw [if_pos hmod] at h; cases h
    · rw [if_neg hmod] at h
      simp only [List.mem_singleton] at h
      subst h
      exact ⟨F.length / (R * c), _, by omega, rfl⟩

theorem fullPages_captions (p : Nat) :
    ((fullPages E F I P R c p).flatMap (fun pg => pg.canvas.cells)).map
      (fun cell => cell.caption) = F.take (p * (R * c)) := by
  induction p with
  | zero => simp [fullPages]
  | succ p ih =>
    rw [fullPages_succ, List.flatMap_append, List.map_append, ih]
    simp only [List.flatMap_cons, List.flatMap_nil, List.append_nil, pageAt, placeFrom_caption]
    exact take_block _ _ _

/-- The captions drawn, page after page, are the input list. -/
theorem successRun_captions (hcap : 0 < R * c) :
    ((successRun E F O I P R c).pdf.images.flatMap
      (fun pg => pg.canvas.cells)).map (fun cell => cell.caption) = F := by
  obtain ⟨hq, hsub, hmodlt⟩ := div_mul_add_mod_lt F.length (R * c) hcap
  simp only [successRun, List.flatMap_append, List.map_append, fullPages_captions]
  by_cases hmod : F.length % (R * c) = 0
  · rw [if_pos hmod]
    simp only [List.flatMap_nil, List.map_nil, List.append_nil]
    exact List.take_of_length_le (by omega)
  · rw [if_neg hmod]
    simp only [List.flatMap_cons, List.flatMap_nil, List.append_nil, pageAt, placeFrom_caption]
    rw [take_block]
    refine List.take_of_length_le ?_
    rw [Nat.succ_mul]; omega

/-- Number of pages of the successful run. -/
theorem successRun_pageCount (hcap : 0 < R * c) :
    (successRun E F O I P R c).pdf.pageCount =
        (F.length + R * c - 1) / (R * c) ∧
    (successRun E F O I P R c).pdf.images.length =
        (F.length + R * c - 1) / (R * c) := by
  obtain ⟨hq, hsub, hmodlt⟩ := div_mul_add_mod_lt F.length (R * c) hcap
  have key : F.length / (R * c) + (if F.length % (R * c) = 0 then 0 else 1) =
      (F.length + R * c - 1) / (R * c) := by
    have hn : F.length =
        F.length / (R * c) * (R * c) + F.length % (R * c) := by omega
    conv_rhs => rw [hn]
    exact (ceil_div_eq _ _ _ hcap hmodlt).symm
  simp only [successRun, List.length_append, fullPages_length]
  by_cases hmod : F.length % (R * c) = 0
  · simp only [hmod, if_true, List.length_nil] at key ⊢
    exact ⟨key, key⟩
  · simp only [hmod, if_false, List.length_singleton] at key ⊢
    exact ⟨key, key⟩

end Pages

/-! ## Whole runs -/

theorem grid_dims {columns : Int} (hc : 1 ≤ columns) :
    ((rowsOf columns).toNat : Int) = rowsOf columns ∧ ((columns.toNat : Nat) : Int) = columns ∧
    1 ≤ (rowsOf columns).toNat ∧ 1 ≤ columns.toNat ∧
    capacity columns = (rowsOf columns).toNat * columns.toNat := by
  have hr := rowsOf_pos hc
  refine ⟨Int.toNat_of_nonneg (by omega), Int.toNat_of_nonneg (by omega), by omega, by omega, ?_⟩
  unfold capacity
  have h1 : ((rowsOf columns).toNat : Int) = rowsOf columns := Int.toNat_of_nonneg (by omega)
  have h2 : ((columns.toNat : Nat) : Int) = columns := Int.toNat_of_nonneg (by omega)
  have h3 : (((rowsOf columns * columns).toNat : Nat) : Int) =
      (((rowsOf columns).toNat * columns.toNat : Nat) : Int) := by
    rw [Int.toNat_of_nonneg (Int.mul_nonneg (by omega) (by omega)), Nat.cast_mul, h1, h2]
  exact_mod_cast h3

theorem stateAt_zero (env : Env) (fileNames : List String) (item : ContactSheetItem)
    (sp : Point) (R c : Nat) : stateAt env fileNames item sp R c 0 = ⟨createPdf, [], [0]⟩ := by
  simp [stateAt, fullPages, createPdf, List.range_succ]

theorem NewRGBA_of_allocated {columns : Int} (h : CanvasAllocated columns) :
    NewRGBA ⟨⟨0, 0⟩, canvasPoint columns⟩ = some ⟨⟨⟨0, 0⟩, canvasPoint columns⟩, []⟩ := by
  unfold CanvasAllocated pageBounds NewRGBA at h
  unfold NewRGBA
  split_ifs at h ⊢ with hbad
  · cases h
  · rfl

theorem NewRGBA_eq_some {r : Rectangle} {canvas : RGBA} (h : NewRGBA r = some canvas) :
    canvas = ⟨r, []⟩ := by
  unfold NewRGBA at h
  split_ifs at h
  cases h
  rfl

theorem generateContactSheet_success {env : Env} {fileNames : List String}
    {outputFile : String} {columns : Int} {fuel : Nat} (hc : 1 ≤ columns)
    (hdec : AllDecode env fileNames) (henc : AppendsSucceed env columns)
    (hfuel : fileNames.length + 2 ≤ fuel) :
    generateContactSheet env fileNames outputFile columns fuel =
      some (expectedRun env fileNames outputFile columns) := by
  obtain ⟨hR, hC, hR1, hC1, -⟩ := grid_dims hc
  have hcap : 0 < (rowsOf columns).toNat * columns.toNat := Nat.mul_pos hR1 hC1
  have := generateLoop_success (E := env) (F := fileNames) (I := contactSheetItem)
    (P := canvasPoint columns) (R := (rowsOf columns).toNat) (c := columns.toNat)
    (O := outputFile) (NewRGBA_of_allocated henc.1) henc.2 hcap hdec fuel
    (by have := Nat.div_le_self fileNames.length ((rowsOf columns).toNat * columns.toNat); omega)
  rw [stateAt_zero, hR, hC] at this
  simpa [generateContactSheet, expectedRun, canvasPoint] using this

theorem generateContactSheet_fail {env : Env} {fileNames : List String}
    {outputFile : String} {columns : Int} {fuel : Nat} (hc : 1 ≤ columns)
    (k : Nat) (bad : String) (e : GoError)
    (hgood : AllDecode env (fileNames.take k))
    (hbad : fileNames.get? k = some bad) (he : env.decodeErr bad = some e)
    (halloc : CanvasAllocated columns)
    (henc : ∀ p, p < k / capacity columns → env.encodeErr (pageCanvas fileNames columns p) = none)
    (hfuel : fileNames.length + 2 ≤ fuel) :
    generateContactSheet env fileNames outputFile columns fuel =
      some (failRun env fileNames contactSheetItem (canvasPoint columns)
        (rowsOf columns).toNat columns.toNat k e) := by
  obtain ⟨hR, hC, hR1, hC1, hcapeq⟩ := grid_dims hc
  simp only [pageCanvas, pageBounds, hcapeq] at henc
  have hcap : 0 < (rowsOf columns).toNat * columns.toNat := Nat.mul_pos hR1 hC1
  have hk : k < fileNames.length := by
    by_contra hcon
    rw [List.get?_eq_none.2 (by omega)] at hbad
    cases hbad
  have := generateLoop_fail (E := env) (F := fileNames) (I := contactSheetItem)
    (P := canvasPoint columns) (R := (rowsOf columns).toNat) (c := columns.toNat)
    (O := outputFile) (NewRGBA_of_allocated halloc) hcap k bad e henc hgood hbad he fuel
    (by have := Nat.div_le_self k ((rowsOf columns).toNat * columns.toNat); omega)
  rw [stateAt_zero, hR, hC] at this
  simpa [generateContactSheet, canvasPoint] using this

/-- A run whose first page is filled and then rejected by the encoder. -/
theorem generateContactSheet_first_append_fails (env : Env) (fileNames : List String)
    (outputFile : String) (columns : Int) (hc : 1 ≤ columns)
    (halloc : CanvasAllocated columns) (good rest : List String)
    (e : GoError) (hsplit : fileNames = good ++ rest) (hgood : AllDecode env good)
    (hlen : good.length = capacity columns)
    (herr : env.encodeErr ⟨pageBounds columns, placeFrom contactSheetItem columns.toNat 0 good⟩ =
      some e) (fuel : Nat) :
    generateContactSheet env fileNames outputFile columns (fuel + 1) =
      some ⟨.returned (some e), ⟨1, []⟩, good, [0, ((capacity columns : Nat) : Int)], false⟩ := by
  obtain ⟨hR, hC, hR1, hC1, hcapeq⟩ := grid_dims hc
  have hcap : 0 < (rowsOf columns).toNat * columns.toNat := Nat.mul_pos hR1 hC1
  rw [hcapeq] at hlen ⊢
  have hcond : (0 : Int) ≥ 0 ∧ (0 : Int) < (fileNames.length : Int) := by
    constructor
    · omega
    · rw [hsplit, List.length_append]
      omega
  have hgrid := createImageGrid_full (E := env) (F := fileNames) (I := contactSheetItem)
    (rowsOf columns).toNat columns.toNat 0 ⟨⟨⟨0, 0⟩, canvasPoint columns⟩, []⟩ [] good rest
    (by rw [List.drop_zero]; exact hsplit) hgood hlen
  rw [hR, hC] at hgrid
  simp only [Nat.cast_zero, Nat.zero_add, List.nil_append] at hgrid
  have herr2 : env.encodeErr ⟨⟨⟨0, 0⟩, canvasPoint columns⟩,
      placeFrom contactSheetItem columns.toNat 0 good⟩ = some e := herr
  unfold generateContactSheet
  rw [generateLoop, if_pos hcond]
  simp only [createPdf]
  have hsp : (⟨canvasWidth contactSheetItem columns,
      canvasHeight contactSheetItem (rowsOf columns)⟩ : Point) = canvasPoint columns := rfl
  rw [hsp, NewRGBA_of_allocated halloc]
  simp only [hgrid, AddNextImage, herr2, List.cons_append, List.nil_append]

/-! ## Claims -/

/-- C1 (amended with the premise that page appends succeed): for `columns ≥ 1`, when
every file decodes and every page append succeeds, the run returns, the files are
resized and composited once each in input order, and the item of index `i` is the
cell number `i mod (rows*columns)` of page `i div (rows*columns)`, drawn by
`appendImage` at row `(i mod (rows*columns)) div columns` and column
`(i mod (rows*columns)) mod columns`. -/
theorem placement_follows_input_order (env : Env) (fileNames : List String)
    (outputFile : String) (columns : Int) (fuel : Nat) (hc : 1 ≤ columns)
    (hdec : AllDecode env fileNames) (henc : AppendsSucceed env columns)
    (hfuel : fileNames.length + 2 ≤ fuel) :
    ∃ r, generateContactSheet env fileNames outputFile columns fuel = some r ∧
      r.decoded = fileNames ∧
      (r.pdf.images.flatMap (fun pg => pg.canvas.cells)).map (fun cell => cell.caption) =
        fileNames ∧
      ∀ (i : Nat) (hi : i < fileNames.length), ∃ pg cell,
        r.pdf.images[i / capacity columns]? = some pg ∧
        pg.canvas.cells[i % capacity columns]? = some cell ∧
        cell.row = (i : Int) % (rowsOf columns * columns) / columns ∧
        cell.col = (i : Int) % (rowsOf columns * columns) % columns ∧
        cell.caption = fileNames[i] := by
  obtain ⟨hR, hC, hR1, hC1, hcapeq⟩ := grid_dims hc
  have hcap : 0 < (rowsOf columns).toNat * columns.toNat := Nat.mul_pos hR1 hC1
  refine ⟨_, generateContactSheet_success hc hdec henc hfuel, rfl,
    successRun_captions hcap, ?_⟩
  intro i hi
  rw [hcapeq]
  have hdm := Nat.div_add_mod i ((rowsOf columns).toNat * columns.toNat)
  have hml := Nat.mod_lt i hcap
  have hj : i / ((rowsOf columns).toNat * columns.toNat) *
      ((rowsOf columns).toNat * columns.toNat) < fileNames.length := by
    rw [Nat.mul_comm]; omega
  obtain ⟨name, hpage⟩ := successRun_page (E := env) (F := fileNames)
    (O := outputFile) (I := contactSheetItem) (P := canvasPoint columns) hcap _ hj
  have hidx : i / ((rowsOf columns).toNat * columns.toNat) *
      ((rowsOf columns).toNat * columns.toNat) +
      i % ((rowsOf columns).toNat * columns.toNat) = i := by
    rw [Nat.mul_comm]; exact hdm
  refine ⟨_, cellAt contactSheetItem
    ((i % ((rowsOf columns).toNat * columns.toNat) / columns.toNat : Nat) : Int)
    ((i % ((rowsOf columns).toNat * columns.toNat) % columns.toNat : Nat) : Int)
    fileNames[i], hpage, ?_, ?_, ?_, rfl⟩
  · simp only [placeFrom_getElem?, List.getElem?_take_of_lt hml, List.getElem?_drop, hidx,
      List.getElem?_eq_getElem hi, Option.map_some', Nat.zero_add]
  · simp only [cellAt]
    rw [← hR, ← hC]
    norm_cast
  · simp only [cellAt]
    rw [← hR, ← hC]
    norm_cast

/-- C1 as stated fails: with 79 columns (102 rows, 8058 cells, a canvas of 48960 by
66504 pixels) all 8059 files decode, but the encoder refuses the first page as too
large, so the run returns that error after the first 8058 files; the last file is
never resized nor composited. -/
theorem placement_needs_appends :
    AllDecode jpegLimitEnv (List.replicate 8058 "photo.jpg" ++ ["last.jpg"]) ∧
    pageBounds 79 = ⟨⟨0, 0⟩, ⟨48960, 66504⟩⟩ ∧
    ∀ fuel, generateContactSheet jpegLimitEnv (List.replicate 8058 "photo.jpg" ++ ["last.jpg"])
        "contactsheet.pdf" 79 (fuel + 1) =
      some ⟨.returned (some "jpeg: image is too large to encode"), ⟨1, []⟩,
        List.replicate 8058 "photo.jpg", [0, 8058], false⟩ := by
  have hcap : capacity 79 = 8058 := by decide
  refine ⟨fun _ _ => rfl, by decide, ?_⟩
  intro fuel
  have hlim : ∀ cells : List Cell, jpegLimitEnv.encodeErr ⟨pageBounds 79, cells⟩ =
      some "jpeg: image is too large to encode" := by
    intro cells
    show (if 65536 ≤ (pageBounds 79).Size.X ∨ 65536 ≤ (pageBounds 79).Size.Y then
      some "jpeg: image is too large to encode" else none) = _
    exact if_pos (Or.inr (by decide))
  have h := generateContactSheet_first_append_fails jpegLimitEnv
    (List.replicate 8058 "photo.jpg" ++ ["last.jpg"]) "contactsheet.pdf" 79 (by decide)
    (by unfold CanvasAllocated; decide)
    (List.replicate 8058 "photo.jpg") ["last.jpg"] "jpeg: image is too large to encode" rfl
    (fun _ _ => rfl) (by rw [List.length_replicate, hcap]) (hlim _) fuel
  rw [hcap] at h
  exact h

/-- Witness of C1 (amended) on the scenario of the claim: 31 files, 5 columns. -/
theorem placement_follows_input_order_witness :
    ∃ r, generateContactSheet okEnv thirtyOne "contactsheet.pdf" 5 33 = some r ∧
      r.decoded = thirtyOne ∧
      (r.pdf.images.flatMap (fun pg => pg.canvas.cells)).map (fun cell => cell.caption) =
        thirtyOne ∧
      ∀ (i : Nat) (hi : i < thirtyOne.length), ∃ pg cell,
        r.pdf.images[i / capacity 5]? = some pg ∧
        pg.canvas.cells[i % capacity 5]? = some cell ∧
        cell.row = (i : Int) % (rowsOf 5 * 5) / 5 ∧
        cell.col = (i : Int) % (rowsOf 5 * 5) % 5 ∧
        cell.caption = thirtyOne[i] :=
  placement_follows_input_order okEnv thirtyOne "contactsheet.pdf" 5 33 (by decide)
    (fun _ _ => rfl) ⟨by unfold CanvasAllocated; decide, fun _ _ => rfl⟩ (by decide)

/-- C2: for `columns ≥ 1`, when every file decodes and every page append succeeds, the
run returns having appended exactly `⌈n / (rows*columns)⌉` pages, each registered with
its image, and none of them blank. -/
theorem page_count_is_ceiling (env : Env) (fileNames : List String)
    (outputFile : String) (columns : Int) (fuel : Nat) (hc : 1 ≤ columns)
    (hdec : AllDecode env fileNames) (henc : AppendsSucceed env columns)
    (hfuel : fileNames.length + 2 ≤ fuel) :
    ∃ r, generateContactSheet env fileNames outputFile columns fuel = some r ∧
      r.pdf.pageCount = (fileNames.length + capacity columns - 1) / capacity columns ∧
      r.pdf.images.length = (fileNames.length + capacity columns - 1) / capacity columns ∧
      ∀ pg ∈ r.pdf.images, pg.canvas.cells ≠ [] := by
  obtain ⟨hR, hC, hR1, hC1, hcapeq⟩ := grid_dims hc
  have hcap : 0 < (rowsOf columns).toNat * columns.toNat := Nat.mul_pos hR1 hC1
  have hcount := successRun_pageCount (E := env) (F := fileNames)
    (O := outputFile) (I := contactSheetItem) (P := canvasPoint columns) hcap
  refine ⟨_, generateContactSheet_success hc hdec henc hfuel, ?_, ?_, ?_⟩
  · rw [hcapeq]; exact hcount.1
  · rw [hcapeq]; exact hcount.2
  · intro pg hpg
    obtain ⟨j, name, hj, rfl⟩ := successRun_mem_page hcap pg hpg
    intro hnil
    have hlen := congrArg List.length hnil
    simp only [placeFrom_length, List.length_take, List.length_drop, List.length_nil] at hlen
    omega

/-- Witness of C2: 31 files on a grid of 30 cells. -/
theorem page_count_is_ceiling_witness :
    ∃ r, generateContactSheet okEnv thirtyOne "contactsheet.pdf" 5 33 = some r ∧
      r.pdf.pageCount = (thirtyOne.length + capacity 5 - 1) / capacity 5 ∧
      r.pdf.images.length = (thirtyOne.length + capacity 5 - 1) / capacity 5 ∧
      ∀ pg ∈ r.pdf.images, pg.canvas.cells ≠ [] :=
  page_count_is_ceiling okEnv thirtyOne "contactsheet.pdf" 5 33 (by decide)
    (fun _ _ => rfl) ⟨by unfold CanvasAllocated; decide, fun _ _ => rfl⟩ (by decide)

theorem fullPages_cells_length {env : Env} {fileNames : List String}
    {item : ContactSheetItem} {sp : Point} {R c : Nat} (q : Nat)
    (hq : q * (R * c) ≤ fileNames.length) (pg : Page)
    (hpg : pg ∈ fullPages env fileNames item sp R c q) : pg.canvas.cells.length = R * c := by
  simp only [fullPages, List.mem_map, List.mem_range] at hpg
  obtain ⟨j, hj, rfl⟩ := hpg
  have : (j + 1) * (R * c) ≤ q * (R * c) := Nat.mul_le_mul_right _ hj
  rw [Nat.succ_mul] at this
  simp only [pageAt, placeFrom_length, List.length_take, List.length_drop]
  omega

/-- C3 (amended with the premises that the page canvas is allocated and that the
appends of the pages before the failure succeed): for `columns ≥ 1`, when
`image.NewRGBA` allocates the page canvas at line 96, index `k` is the first file that
fails to decode and `AddNextImage` succeeds on the `⌊k / (rows*columns)⌋` pages filled
before it, the run returns that decode error, has handed exactly the files `0..k` to
`resizeImage`, has not called `savePdf`, and has appended exactly those
`⌊k / (rows*columns)⌋` pages, all of them full. -/
theorem decode_failure_is_fatal (env : Env) (fileNames : List String)
    (outputFile : String) (columns : Int) (fuel : Nat) (k : Nat) (bad : String) (e : GoError)
    (hc : 1 ≤ columns) (halloc : CanvasAllocated columns)
    (hgood : AllDecode env (fileNames.take k))
    (hbad : fileNames[k]? = some bad) (he : env.decodeErr bad = some e)
    (henc : ∀ p, p < k / capacity columns →
      env.encodeErr (pageCanvas fileNames columns p) = none)
    (hfuel : fileNames.length + 2 ≤ fuel) :
    ∃ r, generateContactSheet env fileNames outputFile columns fuel = some r ∧
      r.result = .returned (some e) ∧
      r.decoded = fileNames.take (k + 1) ∧
      r.saved = false ∧
      r.pdf.pageCount = k / capacity columns ∧
      r.pdf.images.map (fun pg => pg.canvas) =
        (List.range (k / capacity columns)).map (pageCanvas fileNames columns) ∧
      ∀ pg ∈ r.pdf.images, pg.canvas.cells.length = capacity columns := by
  obtain ⟨hR, hC, hR1, hC1, hcapeq⟩ := grid_dims hc
  have hcap : 0 < (rowsOf columns).toNat * columns.toNat := Nat.mul_pos hR1 hC1
  have hk : k < fileNames.length := by
    by_contra hcon
    rw [List.getElem?_eq_none (by omega)] at hbad
    cases hbad
  obtain ⟨hq, -, -⟩ := div_mul_add_mod_lt k ((rowsOf columns).toNat * columns.toNat) hcap
  refine ⟨_, generateContactSheet_fail hc k bad e hgood
    (by rw [List.get?_eq_getElem?]; exact hbad) he halloc henc hfuel, rfl, rfl, rfl, ?_, ?_, ?_⟩
  · rw [hcapeq]; rfl
  · simp only [failRun, fullPages, List.map_map, hcapeq]
    apply List.map_congr_left
    intro q _
    simp only [Function.comp, pageAt, pageCanvas, pageBounds, hcapeq]
  · intro pg hpg
    rw [hcapeq]
    exact fullPages_cells_length _ (by omega) pg hpg

/-- Witness of C3 (amended): the third file is corrupt.  With 5 columns (the scenario
of the claim) no page precedes the failure; with 1 column two pages do. -/
theorem decode_failure_is_fatal_witness :
    (∃ r, generateContactSheet corruptEnv ["a.jpg", "b.jpg", "c.jpg", "d.jpg"]
        "contactsheet.pdf" 5 6 = some r ∧
      r.result = .returned (some "invalid JPEG format: missing SOI marker") ∧
      r.decoded = ["a.jpg", "b.jpg", "c.jpg", "d.jpg"].take (2 + 1) ∧
      r.saved = false ∧
      r.pdf.pageCount = 2 / capacity 5 ∧
      r.pdf.images.map (fun pg => pg.canvas) =
        (List.range (2 / capacity 5)).map
          (pageCanvas ["a.jpg", "b.jpg", "c.jpg", "d.jpg"] 5) ∧
      ∀ pg ∈ r.pdf.images, pg.canvas.cells.length = capacity 5) ∧
    (∃ r, generateContactSheet corruptEnv ["a.jpg", "b.jpg", "c.jpg", "d.jpg"]
        "contactsheet.pdf" 1 6 = some r ∧
      r.result = .returned (some "invalid JPEG format: missing SOI marker") ∧
      r.decoded = ["a.jpg", "b.jpg", "c.jpg", "d.jpg"].take (2 + 1) ∧
      r.saved = false ∧
      r.pdf.pageCount = 2 / capacity 1 ∧
      r.pdf.images.map (fun pg => pg.canvas) =
        (List.range (2 / capacity 1)).map
          (pageCanvas ["a.jpg", "b.jpg", "c.jpg", "d.jpg"] 1) ∧
      ∀ pg ∈ r.pdf.images, pg.canvas.cells.length = capacity 1) :=
  ⟨decode_failure_is_fatal corruptEnv ["a.jpg", "b.jpg", "c.jpg", "d.jpg"] "contactsheet.pdf"
      5 6 2 "c.jpg" "invalid JPEG format: missing SOI marker" (by decide)
      (by unfold CanvasAllocated; decide) (by unfold AllDecode; decide) rfl rfl
      (fun _ _ => rfl) (by decide),
    decode_failure_is_fatal corruptEnv ["a.jpg", "b.jpg", "c.jpg", "d.jpg"] "contactsheet.pdf"
      1 6 2 "c.jpg" "invalid JPEG format: missing SOI marker" (by decide)
      (by unfold CanvasAllocated; decide) (by unfold AllDecode; decide) rfl rfl
      (fun _ _ => rfl) (by decide)⟩

/-- C3 as stated fails in two ways.  With 79 columns (8058 cells per page) the file of
index 8058 is the first corrupt one, but the encoder refuses the first page as too
large, and the run returns the error of the encoder, not the decode error; the corrupt
file is never reached.  With 100000 columns and the corrupt file alone, the canvas of
61999980 by 84375972 pixels is beyond what `image.NewRGBA` allocates: the call panics
at line 96 and returns no error at all. -/
theorem decode_failure_needs_appends :
    AllDecode corruptLimitEnv ((List.replicate 8058 "photo.jpg" ++ ["c.jpg"]).take 8058) ∧
    (List.replicate 8058 "photo.jpg" ++ ["c.jpg"])[8058]? = some "c.jpg" ∧
    corruptLimitEnv.decodeErr "c.jpg" = some "invalid JPEG format: missing SOI marker" ∧
    (∀ fuel, generateContactSheet corruptLimitEnv (List.replicate 8058 "photo.jpg" ++ ["c.jpg"])
        "contactsheet.pdf" 79 (fuel + 1) =
      some ⟨.returned (some "jpeg: image is too large to encode"), ⟨1, []⟩,
        List.replicate 8058 "photo.jpg", [0, 8058], false⟩) ∧
    pageBounds 100000 = ⟨⟨0, 0⟩, ⟨61999980, 84375972⟩⟩ ∧
    ∀ fuel, generateContactSheet corruptEnv ["c.jpg"] "contactsheet.pdf" 100000 (fuel + 1) =
      some ⟨.newRGBAPanic, createPdf, [], [0], false⟩ := by
  have hcap : capacity 79 = 8058 := by decide
  have hdec : AllDecode corruptLimitEnv (List.replicate 8058 "photo.jpg") := by
    intro nm hnm
    rw [List.eq_of_mem_replicate hnm]
    rfl
  have htake : (List.replicate 8058 "photo.jpg" ++ ["c.jpg"]).take 8058 =
      List.replicate 8058 "photo.jpg" :=
    List.take_left' (List.length_replicate _ _)
  refine ⟨by rw [htake]; exact hdec, ?_, rfl, ?_, by decide, ?_⟩
  · rw [List.getElem?_append_right (by rw [List.length_replicate]), List.length_replicate]
    rfl
  · intro fuel
    have hlim : ∀ cells : List Cell, corruptLimitEnv.encodeErr ⟨pageBounds 79, cells⟩ =
        some "jpeg: image is too large to encode" := by
      intro cells
      show (if 65536 ≤ (pageBounds 79).Size.X ∨ 65536 ≤ (pageBounds 79).Size.Y then
      some "jpeg: image is too large to encode" else none) = _
      exact if_pos (Or.inr (by decide))
    have h := generateContactSheet_first_append_fails corruptLimitEnv
      (List.replicate 8058 "photo.jpg" ++ ["c.jpg"]) "contactsheet.pdf" 79 (by decide)
      (by unfold CanvasAllocated; decide)
      (List.replicate 8058 "photo.jpg") ["c.jpg"] "jpeg: image is too large to encode" rfl
      hdec (by rw [List.length_replicate, hcap]) (hlim _) fuel
    rw [hcap] at h
    exact h
  · intro fuel
    have hnew : NewRGBA ⟨⟨0, 0⟩, ⟨canvasWidth contactSheetItem 100000,
        canvasHeight contactSheetItem (rowsOf 100000)⟩⟩ = none := by decide
    have hcond : (0 : Int) ≥ 0 ∧ (0 : Int) < ((["c.jpg"] : List String).length : Int) := by
      decide
    unfold generateContactSheet
    rw [generateLoop, if_pos hcond]
    simp only [hnew]

/-- C5 as stated fails at `columns = 3 * 2^47`: the float product rounds up to the
next integer, one more than `⌊22 * columns / 17⌋`. -/
theorem rows_inexact_at_large_columns :
    rowsOf 422212465065984 = 546392601850097 ∧
    (22 * 422212465065984 / 17 : Int) = 546392601850096 := by
  set_option maxRecDepth 100000 in decide

/-- C5 (amended with the bound `columns < 3 * 2^47`): for `0 < columns < 3 * 2^47` the
row count is `⌊22 * columns / 17⌋`, hence at least one and at least `columns`. -/
theorem rows_exact_below_bound (columns : Int) (hpos : 0 < columns)
    (hlt : columns < 3 * 2 ^ 47) :
    rowsOf columns = 22 * columns / 17 ∧ 1 ≤ rowsOf columns ∧ columns ≤ rowsOf columns := by
  obtain ⟨n, rfl⟩ := Int.eq_ofNat_of_zero_le (by omega : 0 ≤ columns)
  have hn : n < 3 * 2 ^ 47 := by exact_mod_cast hlt
  have h := rowsOf_exact hn
  have heq : rowsOf (n : Int) = 22 * (n : Int) / 17 := by
    rw [rowsOf_natCast, h]
    omega
  refine ⟨heq, ?_, ?_⟩ <;> rw [heq] <;> omega

/-- Witness of C5 (amended): five columns give six rows. -/
theorem rows_exact_below_bound_witness :
    rowsOf 5 = 22 * 5 / 17 ∧ 1 ≤ rowsOf 5 ∧ (5 : Int) ≤ rowsOf 5 :=
  rows_exact_below_bound 5 (by decide) (by decide)

/-- C4 as stated fails: with `columns = 0` and no file the call reports no error and
the document is saved. -/
theorem zero_columns_accepted :
    generateContactSheet okEnv [] "contactsheet.pdf" 0 1 =
      some ⟨.returned none, ⟨0, []⟩, [], [0], true⟩ := by
  decide

/-- C4 (amended): `generateContactSheet` makes no configuration check and raises no
configuration error.  For `columns ≤ 0` and an empty file list the call decodes no
image and appends no page, but calls `savePdf` and returns its result.  For
`-14876406511056089 ≤ columns ≤ 0` (the width `620 * columns - 20` does not overflow)
and a non-empty file list the call panics in `image.NewRGBA` at line 96, before any
image is decoded, any page appended or the document saved. -/
theorem nonpositive_columns_unchecked (columns : Int) (hc : columns ≤ 0) :
    (∀ (env : Env) (outputFile : String) (fuel : Nat),
      generateContactSheet env [] outputFile columns (fuel + 1) =
        some ⟨.returned (savePdf env createPdf outputFile), createPdf, [], [0], true⟩) ∧
    (-14876406511056089 ≤ columns →
      ∀ (env : Env) (fileNames : List String) (outputFile : String) (fuel : Nat),
        fileNames ≠ [] →
        generateContactSheet env fileNames outputFile columns (fuel + 1) =
          some ⟨.newRGBAPanic, createPdf, [], [0], false⟩) := by
  constructor
  · intro env outputFile fuel
    simp [generateContactSheet, generateLoop]
  · intro hlo env fileNames outputFile fuel hne
    have hw := canvasWidth_eq hlo (by omega : columns ≤ 14876406511056090)
    have hnew : NewRGBA ⟨⟨0, 0⟩, ⟨canvasWidth contactSheetItem columns,
        canvasHeight contactSheetItem (rowsOf columns)⟩⟩ = none := by
      unfold NewRGBA
      rw [if_pos]
      left
      simp only [Rectangle.Dx, subInt, hw, Int.sub_zero]
      rw [wrapInt_eq (by omega) (by omega)]
      omega
    have hcond : (0 : Int) ≥ 0 ∧ (0 : Int) < (fileNames.length : Int) := by
      constructor
      · omega
      · have := List.length_pos.2 hne
        omega
    unfold generateContactSheet
    rw [generateLoop, if_pos hcond]
    simp only [hnew]

/-- Witness of C4 (amended) at `columns = -3`: saved with no file, a panic with one. -/
theorem nonpositive_columns_unchecked_witness :
    generateContactSheet okEnv [] "contactsheet.pdf" (-3) 1 =
      some ⟨.returned (savePdf okEnv createPdf "contactsheet.pdf"), createPdf, [], [0], true⟩ ∧
    generateContactSheet okEnv ["a.jpg"] "contactsheet.pdf" (-3) 1 =
      some ⟨.newRGBAPanic, createPdf, [], [0], false⟩ :=
  ⟨(nonpositive_columns_unchecked (-3) (by decide)).1 okEnv "contactsheet.pdf" 0,
    (nonpositive_columns_unchecked (-3) (by decide)).2 (by decide) okEnv ["a.jpg"]
      "contactsheet.pdf" 0 (by decide)⟩

/-! ### The canvas keeps its bounds -/

theorem cellBody_rect (env : Env) (fileNames : List String) (item : ContactSheetItem)
    (row col : Int) (s : GridState) :
    (cellBody env fileNames item row col s).state.canvas.Rect = s.canvas.Rect := by
  unfold cellBody
  split_ifs
  · rfl
  · split
    · rfl
    · split <;> rfl

theorem colLoop_rect (env : Env) (fileNames : List String) (item : ContactSheetItem)
    (row : Int) (k : Nat) (col : Int) (s : GridState) :
    (colLoop env fileNames item row k col s).state.canvas.Rect = s.canvas.Rect := by
  induction k generalizing col s with
  | zero => rfl
  | succ k ih =>
    have hb := cellBody_rect env fileNames item row col s
    rw [colLoop]
    cases h : cellBody env fileNames item row col s with
    | next s1 =>
      rw [h] at hb
      show (colLoop env fileNames item row k (col + 1) s1).state.canvas.Rect = _
      rw [ih]
      exact hb
    | returned i e s1 => rw [h] at hb; exact hb
    | indexPanic s1 => rw [h] at hb; exact hb

theorem rowLoop_rect (env : Env) (fileNames : List String) (item : ContactSheetItem)
    (columns : Int) (k : Nat) (row : Int) (s : GridState) :
    (rowLoop env fileNames item columns k row s).state.canvas.Rect = s.canvas.Rect := by
  induction k generalizing row s with
  | zero => rfl
  | succ k ih =>
    have hb := colLoop_rect env fileNames item row columns.toNat 0 s
    rw [rowLoop]
    cases h : colLoop env fileNames item row columns.toNat 0 s with
    | next s1 =>
      rw [h] at hb
      show (rowLoop env fileNames item columns k (row + 1) s1).state.canvas.Rect = _
      rw [ih]
      exact hb
    | returned i e s1 => rw [h] at hb; exact hb
    | indexPanic s1 => rw [h] at hb; exact hb

theorem createImageGrid_rect (env : Env) (cv : RGBA) (fileNames : List String)
    (rows columns fileIdx : Int) (item : ContactSheetItem) (dec : List String) :
    (createImageGrid env cv fileNames rows columns fileIdx item dec).state.canvas.Rect =
      cv.Rect := by
  have hb := rowLoop_rect env fileNames item columns rows.toNat 0 ⟨cv, fileIdx, dec⟩
  rw [createImageGrid]
  cases h : rowLoop env fileNames item columns rows.toNat 0 ⟨cv, fileIdx, dec⟩ with
  | next s1 => rw [h] at hb; exact hb
  | returned i e s1 => rw [h] at hb; exact hb
  | indexPanic s1 => rw [h] at hb; exact hb

theorem generateLoop_rect (env : Env) (fileNames : List String) (outputFile : String)
    (rows columns : Int) (sp : Point) (item : ContactSheetItem) :
    ∀ (fuel : Nat) (fileIdx : Int) (st : LoopState) (r : Run),
      (∀ pg ∈ st.pdf.images, pg.canvas.Rect = ⟨⟨0, 0⟩, sp⟩) →
      generateLoop env fileNames outputFile rows columns sp item fuel fileIdx st = some r →
      ∀ pg ∈ r.pdf.images, pg.canvas.Rect = ⟨⟨0, 0⟩, sp⟩ := by
  intro fuel
  induction fuel with
  | zero => intro fileIdx st r _ h; cases h
  | succ fuel ih =>
    intro fileIdx st r hst h
    rw [generateLoop] at h
    split_ifs at h with hcond
    · cases hnew : NewRGBA ⟨⟨0, 0⟩, sp⟩ with
      | none =>
        rw [hnew] at h
        cases h
        exact hst
      | some canvas =>
        have hcv := NewRGBA_eq_some hnew
        subst hcv
        rw [hnew] at h
        simp only [] at h
        have hb := createImageGrid_rect env ⟨⟨⟨0, 0⟩, sp⟩, []⟩ fileNames rows columns fileIdx
          item st.decoded
        cases hg : createImageGrid env ⟨⟨⟨0, 0⟩, sp⟩, []⟩ fileNames rows columns fileIdx item
          st.decoded with
        | next s1 => rw [hg] at h; cases h; exact hst
        | indexPanic s1 => rw [hg] at h; cases h; exact hst
        | returned i e s1 =>
          rw [hg] at h hb
          cases e with
          | some err => cases h; exact hst
          | none =>
            simp only [AddNextImage] at h
            cases henc : env.encodeErr s1.canvas with
            | some err =>
              simp only [henc] at h
              cases h
              exact hst
            | none =>
              simp only [henc] at h
              refine ih _ _ _ ?_ h
              intro pg hpg
              rcases List.mem_append.1 hpg with h1 | h1
              · exact hst pg h1
              · rw [List.mem_singleton.1 h1]
                exact hb
    · cases h
      exact hst

/-- C6 as stated fails: the canvas size is computed in 64-bit integers.  At
`columns = 10931213373294143` the height `652 * rows` exceeds `2^63 - 1` and wraps to a
negative number, and at `columns = 2^60` both the width and the height wrap; the size
handed to `image.NewRGBA` at line 96 is not the one of the claim, and the allocation
panics. -/
theorem canvas_size_wraps :
    rowsOf 10931213373294143 = 14146276130145364 ∧
    canvasHeight contactSheetItem (rowsOf 10931213373294143) = -9223372036854774288 ∧
    rowsOf 10931213373294143 * 600 + rowsOf 10931213373294143 * 52 = 9223372036854777328 ∧
    NewRGBA (pageBounds 10931213373294143) = none ∧
    canvasWidth contactSheetItem 1152921504606846976 = -4611686018427387924 ∧
    (1152921504606846976 : Int) * 600 + (1152921504606846976 - 1) * 20 =
      714811332856245125100 ∧
    canvasHeight contactSheetItem (rowsOf 1152921504606846976) = -4882961666570126336 ∧
    rowsOf 1152921504606846976 * 600 + rowsOf 1152921504606846976 * 52 =
      972794474240036109312 ∧
    NewRGBA (pageBounds 1152921504606846976) = none := by
  set_option maxRecDepth 100000 in decide

/-- C6 (amended with the bound `columns < 10931213373294143`): for
`1 ≤ columns < 10931213373294143` the canvas size computed at lines 84-85 is
`columns*600 + (columns-1)*20` by `rows*600 + rows*52` (the vertical margin counted
`rows` times), the canvas `image.NewRGBA` allocates at line 96 has exactly these
bounds, and so has every page canvas of every run. -/
theorem canvas_size (columns : Int) (hc : 1 ≤ columns) (hlt : columns < 10931213373294143) :
    canvasWidth contactSheetItem columns = columns * 600 + (columns - 1) * 20 ∧
    canvasHeight contactSheetItem (rowsOf columns) =
      rowsOf columns * 600 + rowsOf columns * 52 ∧
    (∀ canvas : RGBA, NewRGBA (pageBounds columns) = some canvas →
      canvas.Rect = ⟨⟨0, 0⟩, ⟨columns * 600 + (columns - 1) * 20,
        rowsOf columns * 600 + rowsOf columns * 52⟩⟩) ∧
    ∀ (env : Env) (fileNames : List String) (outputFile : String) (fuel : Nat) (r : Run),
      generateContactSheet env fileNames outputFile columns fuel = some r →
      ∀ pg ∈ r.pdf.images, pg.canvas.Rect =
        ⟨⟨0, 0⟩, ⟨columns * 600 + (columns - 1) * 20,
          rowsOf columns * 600 + rowsOf columns * 52⟩⟩ := by
  obtain ⟨hr1, hr2⟩ := rowsOf_le_of_lt hc hlt
  have hw : canvasWidth contactSheetItem columns = columns * 600 + (columns - 1) * 20 :=
    canvasWidth_eq (by omega) (by omega)
  have hh : canvasHeight contactSheetItem (rowsOf columns) =
      rowsOf columns * 600 + rowsOf columns * 52 :=
    canvasHeight_eq (by omega) (by omega)
  refine ⟨hw, hh, ?_, ?_⟩
  · intro canvas hcv
    rw [NewRGBA_eq_some hcv, ← hw, ← hh]
    rfl
  · intro env fileNames outputFile fuel r h pg hpg
    rw [← hw, ← hh]
    exact generateLoop_rect env fileNames outputFile _ _ _ _ fuel 0 _ r
      (by intro pg hpg; cases hpg) h pg hpg

/-- Witness of C6 (amended): five columns and six rows give canvases of 3080 by 3912. -/
theorem canvas_size_witness :
    canvasWidth contactSheetItem 5 = 3080 ∧ canvasHeight contactSheetItem (rowsOf 5) = 3912 ∧
    NewRGBA (pageBounds 5) = some ⟨⟨⟨0, 0⟩, ⟨3080, 3912⟩⟩, []⟩ ∧
    ∃ r, generateContactSheet okEnv thirtyOne "contactsheet.pdf" 5 33 = some r ∧
      r.pdf.images.length = 2 ∧
      ∀ pg ∈ r.pdf.images, pg.canvas.Rect = ⟨⟨0, 0⟩, ⟨3080, 3912⟩⟩ :=
  ⟨by decide, by decide, by decide, expectedRun okEnv thirtyOne "contactsheet.pdf" 5,
    generateContactSheet_success (by decide) (fun _ _ => rfl)
      ⟨by unfold CanvasAllocated; decide, fun _ _ => rfl⟩ (by decide),
    by decide,
    fun pg hpg => by
      have h := (canvas_size 5 (by decide) (by decide)).2.2.2 okEnv thirtyOne
        "contactsheet.pdf" 33 _
        (generateContactSheet_success (by decide) (fun _ _ => rfl)
          ⟨by unfold CanvasAllocated; decide, fun _ _ => rfl⟩ (by decide)) pg hpg
      rw [h]
      decide⟩

/-- C7, the code at the failing input: with 5 columns and 31 files the run succeeds,
the cursor variable goes `0, 30, -1`, and the two pages are submitted as `image1` and
`image0`: the final, partial page gets index `0`, not `⌈31 / 30⌉ = 2`. -/
theorem final_page_submitted_as_image0 :
    (generateContactSheet okEnv thirtyOne "contactsheet.pdf" 5 33).map
        (fun r => (r.result, r.cursors, r.pdf.images.map (fun pg => pg.imageName))) =
      some (.returned none, [0, 30, -1], ["image1", "image0"]) := by
  set_option maxRecDepth 100000 in decide

/-- C8 as stated fails: on the successful run over 31 files with 5 columns the variable
`fileIdx` takes the values `0, 30, -1`: it decreases at the end, and the run ends with
the cursor at `-1`, not at `31`. -/
theorem cursor_ends_at_sentinel :
    ∃ r, generateContactSheet okEnv thirtyOne "contactsheet.pdf" 5 33 = some r ∧
      r.result = .returned none ∧ r.cursors = [0, 30, -1] ∧
      r.cursors.getLast? ≠ some (thirtyOne.length : Int) := by
  refine ⟨expectedRun okEnv thirtyOne "contactsheet.pdf" 5,
    generateContactSheet_success (by decide) (fun _ _ => rfl) ⟨by unfold CanvasAllocated; decide, fun _ _ => rfl⟩ (by decide),
    ?_, ?_, ?_⟩ <;> set_option maxRecDepth 100000 in decide

/-- C8 (amended): for `columns ≥ 1`, when every file decodes and every page append
succeeds, the variable `fileIdx` of `generateContactSheet` takes the values
`0, cap, 2*cap, …, ⌊n/cap⌋*cap` (`cap = rows*columns`), followed by the sentinel `-1`
when `n` is not a multiple of `cap`; the run ends with the cursor equal to `n` when
`cap` divides `n` and equal to `-1` otherwise. -/
theorem cursor_values (env : Env) (fileNames : List String)
    (outputFile : String) (columns : Int) (fuel : Nat) (hc : 1 ≤ columns)
    (hdec : AllDecode env fileNames) (henc : AppendsSucceed env columns)
    (hfuel : fileNames.length + 2 ≤ fuel) :
    ∃ r, generateContactSheet env fileNames outputFile columns fuel = some r ∧
      r.cursors =
        (List.range (fileNames.length / capacity columns + 1)).map
            (fun p => ((p * capacity columns : Nat) : Int)) ++
          (if fileNames.length % capacity columns = 0 then [] else [-1]) ∧
      r.cursors.getLast? =
        some (if fileNames.length % capacity columns = 0 then (fileNames.length : Int) else -1) := by
  obtain ⟨hR, hC, hR1, hC1, hcapeq⟩ := grid_dims hc
  have hcap : 0 < (rowsOf columns).toNat * columns.toNat := Nat.mul_pos hR1 hC1
  obtain ⟨hq, hsub, hmodlt⟩ :=
    div_mul_add_mod_lt fileNames.length ((rowsOf columns).toNat * columns.toNat) hcap
  have hcur : (expectedRun env fileNames outputFile columns).cursors =
      (List.range (fileNames.length / capacity columns + 1)).map
          (fun p => ((p * capacity columns : Nat) : Int)) ++
        (if fileNames.length % capacity columns = 0 then [] else [-1]) := by
    rw [hcapeq]; rfl
  refine ⟨_, generateContactSheet_success hc hdec henc hfuel, hcur, ?_⟩
  rw [hcur, hcapeq]
  by_cases hmod : fileNames.length % ((rowsOf columns).toNat * columns.toNat) = 0
  · simp only [hmod, if_true, List.append_nil, List.range_succ, List.map_append, List.map_cons,
      List.map_nil, List.getLast?_concat]
    have : fileNames.length / ((rowsOf columns).toNat * columns.toNat) *
        ((rowsOf columns).toNat * columns.toNat) = fileNames.length := by omega
    rw [this]
  · simp only [hmod, if_false, List.getLast?_concat]

/-- Witness of C8 (amended): 31 files, 5 columns. -/
theorem cursor_values_witness :
    ∃ r, generateContactSheet okEnv thirtyOne "contactsheet.pdf" 5 33 = some r ∧
      r.cursors =
        (List.range (thirtyOne.length / capacity 5 + 1)).map
            (fun p => ((p * capacity 5 : Nat) : Int)) ++
          (if thirtyOne.length % capacity 5 = 0 then [] else [-1]) ∧
      r.cursors.getLast? =
        some (if thirtyOne.length % capacity 5 = 0 then (thirtyOne.length : Int) else -1) :=
  cursor_values okEnv thirtyOne "contactsheet.pdf" 5 33 (by decide)
    (fun _ _ => rfl) ⟨by unfold CanvasAllocated; decide, fun _ _ => rfl⟩ (by decide)

/-- C10 as stated fails: the canvas size is computed in 64-bit integers.  At
`columns = 10931213373294143` the canvas height wraps to a negative number, and at
`columns = 2^60` so do both sides; the rectangle of the first cell, `(0,0)-(600,600)`,
does not lie inside the canvas computed by `generateContactSheet`. -/
theorem cell_rectangle_outside_wrapped_canvas :
    pageBounds 10931213373294143 = ⟨⟨0, 0⟩, ⟨6777352291442368640, -9223372036854774288⟩⟩ ∧
    pageBounds 1152921504606846976 =
      ⟨⟨0, 0⟩, ⟨-4611686018427387924, -4882961666570126336⟩⟩ ∧
    destRect ⟨rectFromOrigin 600 600, []⟩ contactSheetItem 0 0 = ⟨⟨0, 0⟩, ⟨600, 600⟩⟩ ∧
    ¬ (destRect ⟨rectFromOrigin 600 600, []⟩ contactSheetItem 0 0).Inside
        (pageBounds 10931213373294143) ∧
    ¬ (destRect ⟨rectFromOrigin 600 600, []⟩ contactSheetItem 0 0).Inside
        (pageBounds 1152921504606846976) := by
  have h1 : pageBounds 10931213373294143 =
      ⟨⟨0, 0⟩, ⟨6777352291442368640, -9223372036854774288⟩⟩ := by
    set_option maxRecDepth 100000 in decide
  have h2 : pageBounds 1152921504606846976 =
      ⟨⟨0, 0⟩, ⟨-4611686018427387924, -4882961666570126336⟩⟩ := by
    set_option maxRecDepth 100000 in decide
  have h3 : destRect ⟨rectFromOrigin 600 600, []⟩ contactSheetItem 0 0 =
      ⟨⟨0, 0⟩, ⟨600, 600⟩⟩ := by decide
  refine ⟨h1, h2, h3, ?_, ?_⟩
  · rw [h1, h3]
    unfold Rectangle.Inside
    decide
  · rw [h2, h3]
    unfold Rectangle.Inside
    decide

/-- C10 (amended with the bound `columns < 10931213373294143`): below that bound, for
every `row` in `[0, rows)` and `col` in `[0, columns)`, the rectangle `appendImage`
blits a resized image to lies inside the page canvas of `generateContactSheet`, and the
rectangles of two distinct cells do not overlap. -/
theorem cell_rectangles_fit (env : Env) (fileName : String) (img : RGBA) (columns : Int)
    (hlt : columns < 10931213373294143)
    (himg : resizeImage env fileName contactSheetItem.Height contactSheetItem.Width = .ok img)
    (row col : Int) (hrow : 0 ≤ row ∧ row < rowsOf columns) (hcol : 0 ≤ col ∧ col < columns) :
    (destRect img contactSheetItem row col).Inside (pageBounds columns) ∧
    ∀ (row2 col2 : Int), 0 ≤ row2 ∧ row2 < rowsOf columns → 0 ≤ col2 ∧ col2 < columns →
      (row, col) ≠ (row2, col2) →
      ¬ (destRect img contactSheetItem row col).Overlaps
          (destRect img contactSheetItem row2 col2) := by
  have hi : img = ⟨rectFromOrigin 600 600, []⟩ := by
    unfold resizeImage at himg
    split at himg
    · cases himg
    · cases himg; rfl
  subst hi
  obtain ⟨hr1, hr2⟩ := rowsOf_le_of_lt (by omega : 1 ≤ columns) hlt
  have hw : canvasWidth contactSheetItem columns = columns * 600 + (columns - 1) * 20 :=
    canvasWidth_eq (by omega) (by omega)
  have hh : canvasHeight contactSheetItem (rowsOf columns) =
      rowsOf columns * 600 + rowsOf columns * 52 :=
    canvasHeight_eq (by omega) (by omega)
  rw [destRect_eq hrow.1 (by omega) hcol.1 (by omega)]
  constructor
  · simp only [Rectangle.Inside, pageBounds, canvasPoint, hw, hh]
    omega
  · intro row2 col2 hrow2 hcol2 hne
    have hne2 : row ≠ row2 ∨ col ≠ col2 := by
      by_contra hcon
      push_neg at hcon
      exact hne (by rw [hcon.1, hcon.2])
    rw [destRect_eq hrow2.1 (by omega) hcol2.1 (by omega)]
    simp only [Rectangle.Overlaps]
    omega

/-- Witness of C10 (amended): the last cell of the 5 by 6 grid against the first one. -/
theorem cell_rectangles_fit_witness :
    (destRect ⟨rectFromOrigin 600 600, []⟩ contactSheetItem 5 4).Inside (pageBounds 5) ∧
    ∀ (row2 col2 : Int), 0 ≤ row2 ∧ row2 < rowsOf 5 → 0 ≤ col2 ∧ col2 < 5 →
      ((5 : Int), (4 : Int)) ≠ (row2, col2) →
      ¬ (destRect ⟨rectFromOrigin 600 600, []⟩ contactSheetItem 5 4).Overlaps
          (destRect ⟨rectFromOrigin 600 600, []⟩ contactSheetItem row2 col2) :=
  cell_rectangles_fit okEnv "photo.jpg" ⟨rectFromOrigin 600 600, []⟩ 5 (by decide) rfl 5 4
    (by decide) (by decide)

/-! ### Image names -/

theorem digitChar_value (k : Nat) (hk : k < 10) : (Nat.digitChar k).toNat - 48 = k := by
  interval_cases k <;> rfl

theorem toDigitsCore_value (fuel n : Nat) (ds : List Char) (h : n < fuel) :
    ∃ xs, Nat.toDigitsCore 10 fuel n ds = xs ++ ds ∧ digitsValue xs = n := by
  induction fuel generalizing n ds with
  | zero => omega
  | succ fuel ih =>
    simp only [Nat.toDigitsCore]
    by_cases h0 : n / 10 = 0
    · rw [if_pos h0]
      refine ⟨[Nat.digitChar (n % 10)], rfl, ?_⟩
      simp only [digitsValue, List.foldl_cons, List.foldl_nil]
      rw [digitChar_value _ (Nat.mod_lt _ (by norm_num))]
      omega
    · rw [if_neg h0]
      obtain ⟨xs, hxs, hv⟩ := ih (n / 10) (Nat.digitChar (n % 10) :: ds) (by omega)
      refine ⟨xs ++ [Nat.digitChar (n % 10)], by rw [hxs]; simp, ?_⟩
      unfold digitsValue at hv ⊢
      rw [List.foldl_append, hv]
      simp only [List.foldl_cons, List.foldl_nil]
      rw [digitChar_value _ (Nat.mod_lt _ (by norm_num))]
      omega

theorem repr_injective {a b : Nat} (h : Nat.repr a = Nat.repr b) : a = b := by
  have hd : Nat.toDigits 10 a = Nat.toDigits 10 b := by
    have := congrArg String.data h
    simpa [Nat.repr] using this
  obtain ⟨xa, hxa, hva⟩ := toDigitsCore_value (a + 1) a [] (by omega)
  obtain ⟨xb, hxb, hvb⟩ := toDigitsCore_value (b + 1) b [] (by omega)
  unfold Nat.toDigits at hd
  rw [hxa, hxb, List.append_nil, List.append_nil] at hd
  rw [← hva, ← hvb, hd]

theorem Itoa_natCast (n : Nat) : Itoa (n : Int) = Nat.repr n := rfl

theorem imageName_injective {a b : Nat}
    (h : "image" ++ Itoa (a : Int) = "image" ++ Itoa (b : Int)) : a = b := by
  rw [Itoa_natCast, Itoa_natCast] at h
  have := congrArg String.data h
  simp only [String.data_append] at this
  have h2 := List.append_cancel_left this
  exact repr_injective (String.ext h2)

section Names

variable {E : Env} {F : List String} {I : ContactSheetItem} {P : Point}
  {R c : Nat} {O : String}

/-- Names of the pages of the successful run: `image1`, `image2`, … for the full
pages and `image0` for a final partial page. -/
theorem successRun_names (hcap : 0 < R * c) (hlen : F.length < 2 ^ 53) :
    (successRun E F O I P R c).pdf.images.map (fun pg => pg.imageName) =
      ((List.range (F.length / (R * c))).map (fun j => j + 1) ++
        (if F.length % (R * c) = 0 then [] else [0])).map
        (fun m => "image" ++ Itoa ((m : Nat) : Int)) := by
  obtain ⟨hq, hsub, hmodlt⟩ := div_mul_add_mod_lt F.length (R * c) hcap
  simp only [successRun, List.map_append, List.map_map, fullPages]
  congr 1
  · apply List.map_congr_left
    intro j hj
    rw [List.mem_range] at hj
    have h1 : (j + 1) * (R * c) ≤ F.length / (R * c) * (R * c) :=
      Nat.mul_le_mul_right _ hj
    simp only [Function.comp, pageAt]
    rw [imageNumOf_full E R c (j + 1) hcap (by omega) (by omega)]
  · by_cases hmod : F.length % (R * c) = 0
    · simp only [hmod, if_true, List.map_nil]
    · have h2 : 2 ≤ R * c := by
        by_contra hcon
        have h1 : R * c = 1 := by omega
        rw [h1, Nat.mod_one] at hmod
        exact hmod rfl
      simp only [hmod, if_false, List.map_cons, List.map_nil, pageAt,
        imageNumOf_sentinel E R c h2]
      rfl

end Names

/-- C9: for `columns ≥ 1` and fewer than `2^53` files, when every file decodes and
every page append succeeds, the pages are registered as `image1`, `image2`, … (the full
pages) and `image0` (a final partial page), and these names are pairwise distinct. -/
theorem image_names_distinct (env : Env) (fileNames : List String)
    (outputFile : String) (columns : Int) (fuel : Nat) (hc : 1 ≤ columns)
    (hlen : fileNames.length < 2 ^ 53)
    (hdec : AllDecode env fileNames) (henc : AppendsSucceed env columns)
    (hfuel : fileNames.length + 2 ≤ fuel) :
    ∃ r, generateContactSheet env fileNames outputFile columns fuel = some r ∧
      r.pdf.images.map (fun pg => pg.imageName) =
        ((List.range (fileNames.length / capacity columns)).map (fun j => j + 1) ++
          (if fileNames.length % capacity columns = 0 then [] else [0])).map
          (fun m => "image" ++ Itoa ((m : Nat) : Int)) ∧
      (r.pdf.images.map (fun pg => pg.imageName)).Nodup := by
  obtain ⟨hR, hC, hR1, hC1, hcapeq⟩ := grid_dims hc
  have hcap : 0 < (rowsOf columns).toNat * columns.toNat := Nat.mul_pos hR1 hC1
  have hnames := successRun_names (E := env) (F := fileNames)
    (O := outputFile) (I := contactSheetItem) (P := canvasPoint columns) hcap hlen
  rw [← hcapeq] at hnames
  refine ⟨_, generateContactSheet_success hc hdec henc hfuel, hnames, ?_⟩
  have hnd : ((List.range (fileNames.length / capacity columns)).map (fun j => j + 1) ++
      (if fileNames.length % capacity columns = 0 then [] else [0])).Nodup := by
    rw [List.nodup_append]
    refine ⟨(List.nodup_range _).map (fun a b h => by simpa using h), ?_, ?_⟩
    · split_ifs
      · exact List.nodup_nil
      · exact List.nodup_singleton 0
    · intro x hx hx2
      simp only [List.mem_map] at hx
      obtain ⟨j, -, rfl⟩ := hx
      split_ifs at hx2
      · cases hx2
      · simp at hx2
  have hall := hnd.map (f := fun m : Nat => "image" ++ Itoa ((m : Nat) : Int))
    (fun a b h => imageName_injective h)
  show (List.map (fun pg => pg.imageName) (expectedRun env fileNames outputFile columns).pdf.images).Nodup
  unfold expectedRun
  rw [hnames]
  exact hall

/-- Witness of C9: 31 files, 5 columns. -/
theorem image_names_distinct_witness :
    ∃ r, generateContactSheet okEnv thirtyOne "contactsheet.pdf" 5 33 = some r ∧
      r.pdf.images.map (fun pg => pg.imageName) =
        ((List.range (thirtyOne.length / capacity 5)).map (fun j => j + 1) ++
          (if thirtyOne.length % capacity 5 = 0 then [] else [0])).map
          (fun m => "image" ++ Itoa ((m : Nat) : Int)) ∧
      (r.pdf.images.map (fun pg => pg.imageName)).Nodup :=
  image_names_distinct okEnv thirtyOne "contactsheet.pdf" 5 33 (by decide) (by decide)
    (fun _ _ => rfl) ⟨by unfold CanvasAllocated; decide, fun _ _ => rfl⟩ (by decide)

end ContactSheet
